import Mathlib

/-!
# Protocol sniffing dispatcher (`app/dispatcher/sniffer.go`)

A shallow embedding of the sniffing engine: the result model (`SniffResult`,
`CompositeResult`), the descriptor list held by a `Sniffer`, and the two passes
`Sniff` and `SniffMetadata`, followed by theorems about them.

Modelling conventions.
* A Go interface value of type `SniffResult` is either the nil interface or a
  concrete value; a concrete value produced by a detector is observed only
  through its two accessors.  An accessor called on the nil interface is a
  nil dereference, modelled as `none`.
* The detectors of the protocol packages return a pointer to their own header
  type.  The closures of `NewSniffer` return that pointer as a `SniffResult`,
  and an interface value made from a pointer is never the nil interface, also
  when the pointer is nil: it is `SniffResult.typedNil`, which passes the test
  `result != nil` of the engine.
* A Go `error` is compared by identity.  `common.ErrNoClue` and the package
  variable `errUnknownContent` are the two sentinels the engine knows; every
  other error value is `GoError.other` with a tag standing for its identity.
  A nil error is `none`.
* `[]byte` is `Option (List UInt8)`: `none` is the nil slice that
  `SniffMetadata` hands to detectors.
* A detector is a deterministic function of the payload and the context.
  The context is threaded through untouched by the engine.
* Every call of the engine also reports the detector invocations it made, in
  order.  This list is ghost information used to state which detectors run.
-/

namespace Dispatcher

/-- Go byte slice; `none` is the nil slice. -/
abbrev Bytes := Option (List UInt8)

/-- The `context.Context` argument; the engine only passes it on. -/
abbrev Context := Nat

/-- Go error values, compared by identity. -/
inductive GoError where
  | ErrNoClue
  | errUnknownContent
  | other (tag : Nat)
  deriving DecidableEq, Repr

/-- Interface values of type `SniffResult`: the nil interface, a value made by a
detector (seen through `Protocol()` and `Domain()`), a `*compositeResult`, or a
non-nil interface value that holds a nil pointer of a header type.  The methods of a
header type have the pointer as receiver, so on the nil pointer each of them either
returns a string or dereferences nil (`none`), as the type decides. -/
inductive SniffResult where
  | nil
  | detected (protocol domain : String)
  | compositeResult (domainResult protocolResult : SniffResult)
  | typedNil (protocol domain : Option String)
  deriving DecidableEq, Repr

/-- Method `Protocol()`; `none` is the nil-interface dereference. -/
def SniffResult.Protocol : SniffResult → Option String
  | .nil => none
  | .detected protocol _ => some protocol
  | .compositeResult _ protocolResult => protocolResult.Protocol
  | .typedNil protocol _ => protocol

/-- Method `Domain()`; `none` is the nil-interface dereference. -/
def SniffResult.Domain : SniffResult → Option String
  | .nil => none
  | .detected _ domain => some domain
  | .compositeResult domainResult _ => domainResult.Domain
  | .typedNil _ domain => domain

/-- Constructor `CompositeResult(domainResult, protocolResult)`. -/
def CompositeResult (domainResult protocolResult : SniffResult) : SniffResult :=
  .compositeResult domainResult protocolResult

/-- The function type `protocolSniffer`: payload and context to `(SniffResult, error)`. -/
abbrev protocolSniffer := Bytes → Context → SniffResult × Option GoError

/-- The struct `protocolSnifferWithMetadata`. -/
structure protocolSnifferWithMetadata where
  protocolSniffer : Dispatcher.protocolSniffer
  metadataSniffer : Bool

/-- The struct `Sniffer`. -/
structure Sniffer where
  sniffer : List protocolSnifferWithMetadata

/-- A pointer `*SniffHeader` as the detectors `http.SniffHTTP`, `tls.SniffTLS` and
`bittorrent.SniffBittorrent` return it.  The packages are not under `src/`; what is
used of them is that the result is a pointer of a concrete type: a pointer to a header,
seen through its two accessors, or the nil pointer, which carries what the two methods
of its type do on a nil receiver (a string, or `none` for a nil dereference). -/
inductive SniffHeader where
  | nilPointer (protocol domain : Option String)
  | header (protocol domain : String)
  deriving DecidableEq, Repr

/-- The conversion of a header pointer to the interface `SniffResult`, which Go inserts
at `return http.SniffHTTP(b)` in the closures of `NewSniffer`.  The interface value is
never the nil interface: a nil pointer gives a non-nil interface holding it. -/
def SniffHeader.toSniffResult : SniffHeader → SniffResult
  | .nilPointer protocol domain => SniffResult.typedNil protocol domain
  | .header protocol domain => SniffResult.detected protocol domain

/-- `NewSniffer()`.  The three detectors live in other packages and are taken as
parameters; the closures of `NewSniffer` drop the context and return the detector's
pointer and error, the pointer converted to the interface `SniffResult`. -/
def NewSniffer (SniffHTTP SniffTLS SniffBittorrent : Bytes → SniffHeader × Option GoError) :
    Sniffer :=
  { sniffer :=
      [ ⟨fun b _ => ((SniffHTTP b).1.toSniffResult, (SniffHTTP b).2), false⟩,
        ⟨fun b _ => ((SniffTLS b).1.toSniffResult, (SniffTLS b).2), false⟩,
        ⟨fun b _ => ((SniffBittorrent b).1.toSniffResult, (SniffBittorrent b).2), false⟩ ] }

/-- One detector invocation: which descriptor ran, on which payload and context. -/
structure Invocation where
  descriptor : protocolSnifferWithMetadata
  payload : Bytes
  ctx : Context

/-- What one engine call yields: the returned pair, the receiver after the call, and
the detector invocations made during the call, in order. -/
structure Call where
  result : SniffResult
  err : Option GoError
  sniffer : Sniffer
  invoked : List Invocation

/-- The `for` loop of `Sniff` over the remaining descriptors, carrying
`pendingSniffer` and the invocations so far.  The first component is the result of
the early `return result, nil`, if the loop took it. -/
def SniffLoop (payload : Bytes) (c : Context) :
    List protocolSnifferWithMetadata → List protocolSnifferWithMetadata → List Invocation →
      Option SniffResult × List protocolSnifferWithMetadata × List Invocation
  | [], pendingSniffer, invoked => (none, pendingSniffer, invoked)
  | si :: rest, pendingSniffer, invoked =>
    if si.metadataSniffer then
      SniffLoop payload c rest pendingSniffer invoked
    else
      let ret := si.protocolSniffer payload c
      let invoked := invoked ++ [⟨si, payload, c⟩]
      if ret.2 = some GoError.ErrNoClue then
        SniffLoop payload c rest (pendingSniffer ++ [si]) invoked
      else if ret.2 = none ∧ ret.1 ≠ SniffResult.nil then
        (some ret.1, pendingSniffer, invoked)
      else
        SniffLoop payload c rest pendingSniffer invoked

/-- Method `(*Sniffer).Sniff`. -/
def Sniffer.Sniff (s : Sniffer) (payload : Bytes) (c : Context) : Call :=
  match SniffLoop payload c s.sniffer [] [] with
  | (some result, _, invoked) => ⟨result, none, s, invoked⟩
  | (none, pendingSniffer, invoked) =>
    if pendingSniffer.length > 0 then
      ⟨SniffResult.nil, some GoError.ErrNoClue, ⟨pendingSniffer⟩, invoked⟩
    else
      ⟨SniffResult.nil, some GoError.errUnknownContent, s, invoked⟩

/-- The `for` loop of `SniffMetadata`. -/
def SniffMetadataLoop (c : Context) :
    List protocolSnifferWithMetadata → List protocolSnifferWithMetadata → List Invocation →
      Option SniffResult × List protocolSnifferWithMetadata × List Invocation
  | [], pendingSniffer, invoked => (none, pendingSniffer, invoked)
  | si :: rest, pendingSniffer, invoked =>
    if ¬ si.metadataSniffer then
      SniffMetadataLoop c rest (pendingSniffer ++ [si]) invoked
    else
      let ret := si.protocolSniffer none c
      let invoked := invoked ++ [⟨si, none, c⟩]
      if ret.2 = some GoError.ErrNoClue then
        SniffMetadataLoop c rest (pendingSniffer ++ [si]) invoked
      else if ret.2 = none ∧ ret.1 ≠ SniffResult.nil then
        (some ret.1, pendingSniffer, invoked)
      else
        SniffMetadataLoop c rest pendingSniffer invoked

/-- Method `(*Sniffer).SniffMetadata`. -/
def Sniffer.SniffMetadata (s : Sniffer) (c : Context) : Call :=
  match SniffMetadataLoop c s.sniffer [] [] with
  | (some result, _, invoked) => ⟨result, none, s, invoked⟩
  | (none, pendingSniffer, invoked) =>
    if pendingSniffer.length > 0 then
      ⟨SniffResult.nil, some GoError.ErrNoClue, ⟨pendingSniffer⟩, invoked⟩
    else
      ⟨SniffResult.nil, some GoError.errUnknownContent, s, invoked⟩

/-! ## Detector outcomes -/

/-- Match: a non-nil result with a nil error. -/
def IsMatch (ret : SniffResult × Option GoError) : Prop :=
  ret.2 = none ∧ ret.1 ≠ SniffResult.nil

/-- Inconclusive: the error is `common.ErrNoClue`. -/
def IsNoClue (ret : SniffResult × Option GoError) : Prop :=
  ret.2 = some GoError.ErrNoClue

/-- Reject: a nil result with a nil error, or any error other than `common.ErrNoClue`. -/
def IsReject (ret : SniffResult × Option GoError) : Prop :=
  (ret.1 = SniffResult.nil ∧ ret.2 = none) ∨ (ret.2 ≠ none ∧ ret.2 ≠ some GoError.ErrNoClue)

instance (ret : SniffResult × Option GoError) : Decidable (IsMatch ret) := by
  unfold IsMatch; infer_instance

instance (ret : SniffResult × Option GoError) : Decidable (IsNoClue ret) := by
  unfold IsNoClue; infer_instance

instance (ret : SniffResult × Option GoError) : Decidable (IsReject ret) := by
  unfold IsReject; infer_instance

/-! ## Sequences of calls on one instance -/

/-- A call made on a Sniffer. -/
inductive Request where
  | Sniff (payload : Bytes) (c : Context)
  | SniffMetadata (c : Context)

/-- Perform one request. -/
def Sniffer.call (s : Sniffer) : Request → Call
  | .Sniff payload c => s.Sniff payload c
  | .SniffMetadata c => s.SniffMetadata c

/-- The receiver after a sequence of requests made one after the other. -/
def Sniffer.after (s : Sniffer) : List Request → Sniffer
  | [] => s
  | r :: rs => Sniffer.after (s.call r).sniffer rs

/-- The calls produced by a sequence of requests made one after the other. -/
def Sniffer.calls (s : Sniffer) : List Request → List Call
  | [] => []
  | r :: rs => s.call r :: Sniffer.calls (s.call r).sniffer rs

/-! ## What the two loops compute -/

/-- A descriptor the content pass runs and that matches the payload. -/
def contentMatch (payload : Bytes) (c : Context) (d : protocolSnifferWithMetadata) : Bool :=
  !d.metadataSniffer && decide (IsMatch (d.protocolSniffer payload c))

/-- A descriptor the content pass runs and that is inconclusive on the payload. -/
def contentNoClue (payload : Bytes) (c : Context) (d : protocolSnifferWithMetadata) : Bool :=
  !d.metadataSniffer && decide (IsNoClue (d.protocolSniffer payload c))

/-- A metadata-only descriptor that matches on the nil payload. -/
def metaMatch (c : Context) (d : protocolSnifferWithMetadata) : Bool :=
  d.metadataSniffer && decide (IsMatch (d.protocolSniffer none c))

/-- A descriptor the metadata pass carries forward: not metadata-only, or inconclusive. -/
def metaKeep (c : Context) (d : protocolSnifferWithMetadata) : Bool :=
  !d.metadataSniffer || decide (IsNoClue (d.protocolSniffer none c))

/-- The descriptors a content pass invokes: the non-metadata ones, in order, up to and
including the first that matches. -/
def contentRun (payload : Bytes) (c : Context) :
    List protocolSnifferWithMetadata → List protocolSnifferWithMetadata
  | [] => []
  | d :: rest =>
    if d.metadataSniffer then contentRun payload c rest
    else if IsMatch (d.protocolSniffer payload c) then [d]
    else d :: contentRun payload c rest

/-- The descriptors a metadata pass invokes: the metadata-only ones, in order, up to and
including the first that matches. -/
def metaRun (c : Context) :
    List protocolSnifferWithMetadata → List protocolSnifferWithMetadata
  | [] => []
  | d :: rest =>
    if ¬ d.metadataSniffer then metaRun c rest
    else if IsMatch (d.protocolSniffer none c) then [d]
    else d :: metaRun c rest

/-- The invocation record of a content pass over a list. -/
def contentTrace (payload : Bytes) (c : Context) (l : List protocolSnifferWithMetadata) :
    List Invocation :=
  (contentRun payload c l).map (fun d => (⟨d, payload, c⟩ : Invocation))

/-- The invocation record of a metadata pass over a list. -/
def metaTrace (c : Context) (l : List protocolSnifferWithMetadata) : List Invocation :=
  (metaRun c l).map (fun d => (⟨d, none, c⟩ : Invocation))

/-- The non-metadata descriptors of a list, in order. -/
def contentOnly (l : List protocolSnifferWithMetadata) : List protocolSnifferWithMetadata :=
  l.filter (fun d => !d.metadataSniffer)

/-- The metadata-only descriptors of a list, in order. -/
def metadataOnly (l : List protocolSnifferWithMetadata) : List protocolSnifferWithMetadata :=
  l.filter (fun d => d.metadataSniffer)

/-! ## Example registries

Small concrete detectors used to evaluate the engine on explicit inputs. -/

/-- A detector of type `protocolSniffer`, without the context, in the style of an HTTP
sniffer: the bytes `G E` match, a shorter beginning is inconclusive, anything else is
rejected with its own error. -/
def exHTTP : Bytes → SniffResult × Option GoError
  | some (71 :: 69 :: _) => (SniffResult.detected "http" "example.com", none)
  | some [71] => (SniffResult.nil, some GoError.ErrNoClue)
  | some [] => (SniffResult.nil, some GoError.ErrNoClue)
  | none => (SniffResult.nil, some GoError.ErrNoClue)
  | _ => (SniffResult.nil, some (GoError.other 1))

/-- A detector of type `protocolSniffer`, without the context, in the style of a TLS
sniffer: the bytes `22 3` match, a shorter beginning is inconclusive, anything else is
rejected with its own error. -/
def exTLS : Bytes → SniffResult × Option GoError
  | some (22 :: 3 :: _) => (SniffResult.detected "tls" "tls.example.com", none)
  | some [22] => (SniffResult.nil, some GoError.ErrNoClue)
  | some [] => (SniffResult.nil, some GoError.ErrNoClue)
  | none => (SniffResult.nil, some GoError.ErrNoClue)
  | _ => (SniffResult.nil, some (GoError.other 2))

/-- A detector of type `protocolSniffer`, without the context, in the style of a
BitTorrent sniffer: a leading `19` matches, no bytes is inconclusive, anything else is
rejected with a nil result and a nil error. -/
def exBittorrent : Bytes → SniffResult × Option GoError
  | some (19 :: _) => (SniffResult.detected "bittorrent" "", none)
  | some [] => (SniffResult.nil, some GoError.ErrNoClue)
  | none => (SniffResult.nil, some GoError.ErrNoClue)
  | _ => (SniffResult.nil, none)

/-- A content descriptor over `exHTTP`. -/
def exHTTPDescriptor : protocolSnifferWithMetadata := ⟨fun b _ => exHTTP b, false⟩

/-- A content descriptor over `exTLS`. -/
def exTLSDescriptor : protocolSnifferWithMetadata := ⟨fun b _ => exTLS b, false⟩

/-- A content descriptor over `exBittorrent`. -/
def exBittorrentDescriptor : protocolSnifferWithMetadata := ⟨fun b _ => exBittorrent b, false⟩

/-- A registry of three content descriptors, built directly, in the order of the default
one. -/
def exSniffer : Sniffer := ⟨[exHTTPDescriptor, exTLSDescriptor, exBittorrentDescriptor]⟩

/-- A detector as a protocol package exports it, in the style of `http.SniffHTTP`: the
bytes `G E` give a header, a shorter beginning gives `common.ErrNoClue`, anything else
an error of its own; the pointer is nil whenever there is an error. -/
def exSniffHTTP : Bytes → SniffHeader × Option GoError
  | some (71 :: 69 :: _) => (SniffHeader.header "http" "example.com", none)
  | some [71] => (SniffHeader.nilPointer (some "http") none, some GoError.ErrNoClue)
  | some [] => (SniffHeader.nilPointer (some "http") none, some GoError.ErrNoClue)
  | none => (SniffHeader.nilPointer (some "http") none, some GoError.ErrNoClue)
  | _ => (SniffHeader.nilPointer (some "http") none, some (GoError.other 1))

/-- A detector as a protocol package exports it, in the style of `tls.SniffTLS`. -/
def exSniffTLS : Bytes → SniffHeader × Option GoError
  | some (22 :: 3 :: _) => (SniffHeader.header "tls" "tls.example.com", none)
  | some [22] => (SniffHeader.nilPointer (some "tls") none, some GoError.ErrNoClue)
  | some [] => (SniffHeader.nilPointer (some "tls") none, some GoError.ErrNoClue)
  | none => (SniffHeader.nilPointer (some "tls") none, some GoError.ErrNoClue)
  | _ => (SniffHeader.nilPointer (some "tls") none, some (GoError.other 2))

/-- A detector as a protocol package exports it, in the style of
`bittorrent.SniffBittorrent`. -/
def exSniffBittorrent : Bytes → SniffHeader × Option GoError
  | some (19 :: _) => (SniffHeader.header "bittorrent" "", none)
  | some [] => (SniffHeader.nilPointer (some "bittorrent") (some ""), some GoError.ErrNoClue)
  | none => (SniffHeader.nilPointer (some "bittorrent") (some ""), some GoError.ErrNoClue)
  | _ => (SniffHeader.nilPointer (some "bittorrent") (some ""), some (GoError.other 4))

/-- A variant of `exSniffBittorrent` that answers a payload it does not recognise with a
nil pointer and a nil error. -/
def exSniffBittorrentLax : Bytes → SniffHeader × Option GoError
  | some (19 :: _) => (SniffHeader.header "bittorrent" "", none)
  | some [] => (SniffHeader.nilPointer (some "bittorrent") (some ""), some GoError.ErrNoClue)
  | none => (SniffHeader.nilPointer (some "bittorrent") (some ""), some GoError.ErrNoClue)
  | _ => (SniffHeader.nilPointer (some "bittorrent") (some ""), none)

/-- The registry built by `NewSniffer` over the three example detectors. -/
def exDefaultSniffer : Sniffer := NewSniffer exSniffHTTP exSniffTLS exSniffBittorrent

/-- A content descriptor that matches every payload. -/
def exAnyDescriptor : protocolSnifferWithMetadata :=
  ⟨fun _ _ => (SniffResult.detected "any" "", none), false⟩

/-- A metadata-only descriptor that matches on the nil payload. -/
def exMetaDescriptor : protocolSnifferWithMetadata :=
  ⟨fun b _ => match b with
    | none => (SniffResult.detected "fakedns" "meta.example.com", none)
    | some _ => (SniffResult.nil, some (GoError.other 3)), true⟩

/-- A content descriptor that is inconclusive on fewer than two bytes and matches
everything longer. -/
def exEagerDescriptor : protocolSnifferWithMetadata :=
  ⟨fun b _ => match b with
    | some (_ :: _ :: _) => (SniffResult.detected "eager" "", none)
    | _ => (SniffResult.nil, some GoError.ErrNoClue), false⟩

/-- A registry whose first descriptor matches everything. -/
def exAnyFirst : Sniffer := ⟨[exAnyDescriptor, exHTTPDescriptor]⟩

/-- A registry whose first descriptor waits for two bytes and then matches everything. -/
def exEagerFirst : Sniffer := ⟨[exEagerDescriptor, exHTTPDescriptor]⟩

/-- A registry with a metadata-only descriptor in front of the three of `exSniffer`. -/
def exWithMeta : Sniffer :=
  ⟨[exMetaDescriptor, exHTTPDescriptor, exTLSDescriptor, exBittorrentDescriptor]⟩

/-- A content descriptor that returns a non-nil result together with an error of its
own on every payload. -/
def exNoisyDescriptor : protocolSnifferWithMetadata :=
  ⟨fun _ _ => (SniffResult.detected "noisy" "", some (GoError.other 7)), false⟩

/-- A metadata-only descriptor that fails with an error of its own. -/
def exFailingMetaDescriptor : protocolSnifferWithMetadata :=
  ⟨fun _ _ => (SniffResult.nil, some (GoError.other 8)), true⟩

/-- A content descriptor whose detector fails with the error value `errUnknownContent`
of the dispatcher package. -/
def exUnknownDescriptor : protocolSnifferWithMetadata :=
  ⟨fun _ _ => (SniffResult.nil, some GoError.errUnknownContent), false⟩

/-- A metadata-only descriptor whose detector fails with the error value
`errUnknownContent` of the dispatcher package. -/
def exUnknownMetaDescriptor : protocolSnifferWithMetadata :=
  ⟨fun _ _ => (SniffResult.nil, some GoError.errUnknownContent), true⟩

theorem isMatch_not_noClue {ret : SniffResult × Option GoError} (h : IsMatch ret) :
    ¬ IsNoClue ret := by
  unfold IsMatch at h; unfold IsNoClue; rw [h.1]; simp

theorem isReject_iff (ret : SniffResult × Option GoError) :
    IsReject ret ↔ ¬ IsMatch ret ∧ ¬ IsNoClue ret := by
  obtain ⟨r, e⟩ := ret
  unfold IsReject IsMatch IsNoClue
  cases e with
  | none => simp
  | some e => simp

theorem SniffLoop_fst (payload : Bytes) (c : Context) (l pend : List protocolSnifferWithMetadata)
    (inv : List Invocation) :
    (SniffLoop payload c l pend inv).1 =
      (l.find? (contentMatch payload c)).map (fun d => (d.protocolSniffer payload c).1) := by
  induction l generalizing pend inv with
  | nil => simp [SniffLoop]
  | cons d rest ih =>
    unfold SniffLoop
    by_cases hm : d.metadataSniffer = true
    · simp [hm, ih, contentMatch, List.find?_cons]
    · by_cases hn : (d.protocolSniffer payload c).2 = some GoError.ErrNoClue
      · have : ¬ IsMatch (d.protocolSniffer payload c) := fun h => isMatch_not_noClue h hn
        simp [hm, hn, ih, contentMatch, List.find?_cons, this]
      · by_cases hk : IsMatch (d.protocolSniffer payload c)
        · have hk2 := hk
          unfold IsMatch at hk2
          simp [hm, hn, contentMatch, List.find?_cons, hk, hk2]
        · have hk2 := hk
          unfold IsMatch at hk2
          simp [hm, hn, ih, contentMatch, List.find?_cons, hk, hk2]

theorem SniffLoop_pending (payload : Bytes) (c : Context)
    (l pend : List protocolSnifferWithMetadata) (inv : List Invocation)
    (h : l.find? (contentMatch payload c) = none) :
    (SniffLoop payload c l pend inv).2.1 = pend ++ l.filter (contentNoClue payload c) := by
  induction l generalizing pend inv with
  | nil => simp [SniffLoop]
  | cons d rest ih =>
    rw [List.find?_cons] at h
    unfold SniffLoop
    by_cases hm : d.metadataSniffer = true
    · have h2 : rest.find? (contentMatch payload c) = none := by
        simpa [contentMatch, hm] using h
      simp [hm, ih _ _ h2, contentNoClue, List.filter_cons]
    · by_cases hk : IsMatch (d.protocolSniffer payload c)
      · simp [contentMatch, hm, hk] at h
      · have h2 : rest.find? (contentMatch payload c) = none := by
          simpa [contentMatch, hm, hk] using h
        have hk2 := hk
        unfold IsMatch at hk2
        by_cases hn : (d.protocolSniffer payload c).2 = some GoError.ErrNoClue
        · simp [hm, hn, ih _ _ h2, contentNoClue, List.filter_cons, IsNoClue]
        · simp [hm, hn, hk2, ih _ _ h2, contentNoClue, List.filter_cons, IsNoClue]

theorem SniffLoop_invoked (payload : Bytes) (c : Context)
    (l pend : List protocolSnifferWithMetadata) (inv : List Invocation) :
    (SniffLoop payload c l pend inv).2.2 =
      inv ++ (contentRun payload c l).map (fun d => (⟨d, payload, c⟩ : Invocation)) := by
  induction l generalizing pend inv with
  | nil => simp [SniffLoop, contentRun]
  | cons d rest ih =>
    unfold SniffLoop contentRun
    by_cases hm : d.metadataSniffer = true
    · simp [hm, ih]
    · by_cases hn : (d.protocolSniffer payload c).2 = some GoError.ErrNoClue
      · have : ¬ IsMatch (d.protocolSniffer payload c) := fun h => isMatch_not_noClue h hn
        simp [hm, hn, ih, this]
      · by_cases hk : IsMatch (d.protocolSniffer payload c)
        · have hk2 := hk
          unfold IsMatch at hk2
          simp [hm, hn, hk, hk2]
        · have hk2 := hk
          unfold IsMatch at hk2
          simp [hm, hn, ih, hk, hk2]

theorem SniffMetadataLoop_fst (c : Context) (l pend : List protocolSnifferWithMetadata)
    (inv : List Invocation) :
    (SniffMetadataLoop c l pend inv).1 =
      (l.find? (metaMatch c)).map (fun d => (d.protocolSniffer none c).1) := by
  induction l generalizing pend inv with
  | nil => simp [SniffMetadataLoop]
  | cons d rest ih =>
    unfold SniffMetadataLoop
    by_cases hm : d.metadataSniffer = true
    · by_cases hn : (d.protocolSniffer none c).2 = some GoError.ErrNoClue
      · have : ¬ IsMatch (d.protocolSniffer none c) := fun h => isMatch_not_noClue h hn
        simp [hm, hn, ih, metaMatch, List.find?_cons, this]
      · by_cases hk : IsMatch (d.protocolSniffer none c)
        · have hk2 := hk
          unfold IsMatch at hk2
          simp [hm, hn, metaMatch, List.find?_cons, hk, hk2]
        · have hk2 := hk
          unfold IsMatch at hk2
          simp [hm, hn, ih, metaMatch, List.find?_cons, hk, hk2]
    · simp [hm, ih, metaMatch, List.find?_cons]

theorem SniffMetadataLoop_pending (c : Context)
    (l pend : List protocolSnifferWithMetadata) (inv : List Invocation)
    (h : l.find? (metaMatch c) = none) :
    (SniffMetadataLoop c l pend inv).2.1 = pend ++ l.filter (metaKeep c) := by
  induction l generalizing pend inv with
  | nil => simp [SniffMetadataLoop]
  | cons d rest ih =>
    rw [List.find?_cons] at h
    unfold SniffMetadataLoop
    by_cases hm : d.metadataSniffer = true
    · by_cases hk : IsMatch (d.protocolSniffer none c)
      · simp [metaMatch, hm, hk] at h
      · have h2 : rest.find? (metaMatch c) = none := by
          simpa [metaMatch, hm, hk] using h
        have hk2 := hk
        unfold IsMatch at hk2
        by_cases hn : (d.protocolSniffer none c).2 = some GoError.ErrNoClue
        · simp [hm, hn, ih _ _ h2, metaKeep, List.filter_cons, IsNoClue]
        · simp [hm, hn, hk2, ih _ _ h2, metaKeep, List.filter_cons, IsNoClue]
    · have h2 : rest.find? (metaMatch c) = none := by
        simpa [metaMatch, hm] using h
      simp [hm, ih _ _ h2, metaKeep, List.filter_cons]

theorem SniffMetadataLoop_invoked (c : Context)
    (l pend : List protocolSnifferWithMetadata) (inv : List Invocation) :
    (SniffMetadataLoop c l pend inv).2.2 =
      inv ++ (metaRun c l).map (fun d => (⟨d, none, c⟩ : Invocation)) := by
  induction l generalizing pend inv with
  | nil => simp [SniffMetadataLoop, metaRun]
  | cons d rest ih =>
    unfold SniffMetadataLoop metaRun
    by_cases hm : d.metadataSniffer = true
    · by_cases hn : (d.protocolSniffer none c).2 = some GoError.ErrNoClue
      · have : ¬ IsMatch (d.protocolSniffer none c) := fun h => isMatch_not_noClue h hn
        simp [hm, hn, ih, this]
      · by_cases hk : IsMatch (d.protocolSniffer none c)
        · have hk2 := hk
          unfold IsMatch at hk2
          simp [hm, hn, hk, hk2]
        · have hk2 := hk
          unfold IsMatch at hk2
          simp [hm, hn, ih, hk, hk2]
    · simp [hm, ih]

/-! ## The two passes, in closed form -/

theorem Sniff_of_find_some {s : Sniffer} {payload : Bytes} {c : Context}
    {d : protocolSnifferWithMetadata} (h : s.sniffer.find? (contentMatch payload c) = some d) :
    s.Sniff payload c =
      ⟨(d.protocolSniffer payload c).1, none, s, contentTrace payload c s.sniffer⟩ := by
  have h1 := SniffLoop_fst payload c s.sniffer [] []
  have h3 := SniffLoop_invoked payload c s.sniffer [] []
  unfold Sniffer.Sniff
  rcases hL : SniffLoop payload c s.sniffer [] [] with ⟨r, pend, inv⟩
  rw [hL] at h1 h3
  simp only [h, Option.map_some', List.nil_append] at h1 h3
  subst h1 h3
  rfl

theorem Sniff_of_find_none {s : Sniffer} {payload : Bytes} {c : Context}
    (h : s.sniffer.find? (contentMatch payload c) = none) :
    s.Sniff payload c =
      if (s.sniffer.filter (contentNoClue payload c)).length > 0 then
        ⟨SniffResult.nil, some GoError.ErrNoClue, ⟨s.sniffer.filter (contentNoClue payload c)⟩,
          contentTrace payload c s.sniffer⟩
      else
        ⟨SniffResult.nil, some GoError.errUnknownContent, s, contentTrace payload c s.sniffer⟩ := by
  have h1 := SniffLoop_fst payload c s.sniffer [] []
  have h2 := SniffLoop_pending payload c s.sniffer [] [] h
  have h3 := SniffLoop_invoked payload c s.sniffer [] []
  unfold Sniffer.Sniff
  rcases hL : SniffLoop payload c s.sniffer [] [] with ⟨r, pend, inv⟩
  rw [hL] at h1 h2 h3
  simp only [h, Option.map_none', List.nil_append] at h1 h2 h3
  subst h1 h2 h3
  rfl

theorem SniffMetadata_of_find_some {s : Sniffer} {c : Context}
    {d : protocolSnifferWithMetadata} (h : s.sniffer.find? (metaMatch c) = some d) :
    s.SniffMetadata c = ⟨(d.protocolSniffer none c).1, none, s, metaTrace c s.sniffer⟩ := by
  have h1 := SniffMetadataLoop_fst c s.sniffer [] []
  have h3 := SniffMetadataLoop_invoked c s.sniffer [] []
  unfold Sniffer.SniffMetadata
  rcases hL : SniffMetadataLoop c s.sniffer [] [] with ⟨r, pend, inv⟩
  rw [hL] at h1 h3
  simp only [h, Option.map_some', List.nil_append] at h1 h3
  subst h1 h3
  rfl

theorem SniffMetadata_of_find_none {s : Sniffer} {c : Context}
    (h : s.sniffer.find? (metaMatch c) = none) :
    s.SniffMetadata c =
      if (s.sniffer.filter (metaKeep c)).length > 0 then
        ⟨SniffResult.nil, some GoError.ErrNoClue, ⟨s.sniffer.filter (metaKeep c)⟩,
          metaTrace c s.sniffer⟩
      else
        ⟨SniffResult.nil, some GoError.errUnknownContent, s, metaTrace c s.sniffer⟩ := by
  have h1 := SniffMetadataLoop_fst c s.sniffer [] []
  have h2 := SniffMetadataLoop_pending c s.sniffer [] [] h
  have h3 := SniffMetadataLoop_invoked c s.sniffer [] []
  unfold Sniffer.SniffMetadata
  rcases hL : SniffMetadataLoop c s.sniffer [] [] with ⟨r, pend, inv⟩
  rw [hL] at h1 h2 h3
  simp only [h, Option.map_none', List.nil_append] at h1 h2 h3
  subst h1 h2 h3
  rfl

theorem contentMatch_iff {payload : Bytes} {c : Context} {d : protocolSnifferWithMetadata} :
    contentMatch payload c d = true ↔
      d.metadataSniffer = false ∧ IsMatch (d.protocolSniffer payload c) := by
  simp [contentMatch]

theorem contentNoClue_iff {payload : Bytes} {c : Context} {d : protocolSnifferWithMetadata} :
    contentNoClue payload c d = true ↔
      d.metadataSniffer = false ∧ IsNoClue (d.protocolSniffer payload c) := by
  simp [contentNoClue]

theorem metaMatch_iff {c : Context} {d : protocolSnifferWithMetadata} :
    metaMatch c d = true ↔ d.metadataSniffer = true ∧ IsMatch (d.protocolSniffer none c) := by
  simp [metaMatch]

theorem metaKeep_iff {c : Context} {d : protocolSnifferWithMetadata} :
    metaKeep c d = true ↔ d.metadataSniffer = false ∨ IsNoClue (d.protocolSniffer none c) := by
  simp [metaKeep]

/-- The error of a content pass is nil exactly when some descriptor is a content match. -/
theorem Sniff_err_none_iff (s : Sniffer) (payload : Bytes) (c : Context) :
    (s.Sniff payload c).err = none ↔ ∃ d ∈ s.sniffer, contentMatch payload c d = true := by
  cases h : s.sniffer.find? (contentMatch payload c) with
  | some d =>
    rw [Sniff_of_find_some h]
    exact ⟨fun _ => ⟨d, List.mem_of_find?_eq_some h, List.find?_some h⟩, fun _ => rfl⟩
  | none =>
    rw [Sniff_of_find_none h]
    have hn := List.find?_eq_none.mp h
    constructor
    · intro he
      split_ifs at he
    · rintro ⟨d, hd, hm⟩
      exact absurd hm (hn d hd)

/-- The error of a metadata pass is nil exactly when some descriptor is a metadata match. -/
theorem SniffMetadata_err_none_iff (s : Sniffer) (c : Context) :
    (s.SniffMetadata c).err = none ↔ ∃ d ∈ s.sniffer, metaMatch c d = true := by
  cases h : s.sniffer.find? (metaMatch c) with
  | some d =>
    rw [SniffMetadata_of_find_some h]
    exact ⟨fun _ => ⟨d, List.mem_of_find?_eq_some h, List.find?_some h⟩, fun _ => rfl⟩
  | none =>
    rw [SniffMetadata_of_find_none h]
    have hn := List.find?_eq_none.mp h
    constructor
    · intro he
      split_ifs at he
    · rintro ⟨d, hd, hm⟩
      exact absurd hm (hn d hd)

/-- A descriptor with no earlier hit in front of it is what `find?` returns. -/
theorem find?_of_first {α : Type} (q : α → Bool) (pre : List α) (d : α) (post : List α)
    (hd : q d = true) (hpre : ∀ x ∈ pre, q x = false) :
    (pre ++ d :: post).find? q = some d := by
  induction pre with
  | nil => simp [hd]
  | cons a pre ih =>
    have ha : q a = false := hpre a (List.mem_cons_self _ _)
    have := ih (fun x hx => hpre x (List.mem_cons_of_mem _ hx))
    simp [List.find?_cons, ha, this]

/-- C1. `Sniff` returns a result with a nil error if and only if at least one
non-metadata descriptor of the list matches the payload; the result is then the one of
the earliest such descriptor in list order, whatever the descriptors after it would
return; in particular, when exactly one descriptor matches, its result is returned by
that call. -/
theorem Sniff_returns_earliest_match (s : Sniffer) (payload : Bytes) (c : Context) :
    ((s.Sniff payload c).err = none ↔
        ∃ d ∈ s.sniffer, d.metadataSniffer = false ∧ IsMatch (d.protocolSniffer payload c)) ∧
    ((s.Sniff payload c).err = none → (s.Sniff payload c).result ≠ SniffResult.nil) ∧
    (∀ pre d post, s.sniffer = pre ++ d :: post →
        d.metadataSniffer = false → IsMatch (d.protocolSniffer payload c) →
        (∀ x ∈ pre, x.metadataSniffer = false → ¬ IsMatch (x.protocolSniffer payload c)) →
        (s.Sniff payload c).result = (d.protocolSniffer payload c).1 ∧
          (s.Sniff payload c).err = none) ∧
    (∀ d ∈ s.sniffer, d.metadataSniffer = false → IsMatch (d.protocolSniffer payload c) →
        (∀ x ∈ s.sniffer, x.metadataSniffer = false →
          IsMatch (x.protocolSniffer payload c) → x = d) →
        (s.Sniff payload c).result = (d.protocolSniffer payload c).1 ∧
          (s.Sniff payload c).err = none) := by
  refine ⟨?_, ?_, ?_, ?_⟩
  · rw [Sniff_err_none_iff]
    simp only [contentMatch_iff]
  · intro he
    obtain ⟨d, hd, hm⟩ := (Sniff_err_none_iff s payload c).mp he
    cases h : s.sniffer.find? (contentMatch payload c) with
    | some d0 =>
      rw [Sniff_of_find_some h]
      exact (contentMatch_iff.mp (List.find?_some h)).2.2
    | none => exact absurd hm (List.find?_eq_none.mp h d hd)
  · intro pre d post hs hmeta hmatch hpre
    have hf : s.sniffer.find? (contentMatch payload c) = some d := by
      rw [hs]
      apply find?_of_first _ _ _ _ (contentMatch_iff.mpr ⟨hmeta, hmatch⟩)
      intro x hx
      cases hq : contentMatch payload c x with
      | false => rfl
      | true =>
        have := contentMatch_iff.mp hq
        exact absurd this.2 (hpre x hx this.1)
    rw [Sniff_of_find_some hf]
    exact ⟨rfl, rfl⟩
  · intro d hd hmeta hmatch huniq
    cases h : s.sniffer.find? (contentMatch payload c) with
    | some d0 =>
      have h0 := contentMatch_iff.mp (List.find?_some h)
      have : d0 = d := huniq d0 (List.mem_of_find?_eq_some h) h0.1 h0.2
      subst this
      rw [Sniff_of_find_some h]
      exact ⟨rfl, rfl⟩
    | none =>
      exact absurd (contentMatch_iff.mpr ⟨hmeta, hmatch⟩) (List.find?_eq_none.mp h d hd)

/-- Witness for C1: on a TLS hello the example registry returns the TLS result, the
second descriptor being the earliest match. -/
theorem Sniff_returns_earliest_match_witness :
    (exSniffer.Sniff (some [22, 3, 1]) 0).result =
        SniffResult.detected "tls" "tls.example.com" ∧
      (exSniffer.Sniff (some [22, 3, 1]) 0).err = none :=
  (Sniff_returns_earliest_match exSniffer (some [22, 3, 1]) 0).2.2.1
    [exHTTPDescriptor] exTLSDescriptor [exBittorrentDescriptor] rfl rfl (by decide)
    (by
      intro x hx
      rw [List.mem_singleton] at hx
      subst hx
      intro _
      decide)

/-- Counterexample for C2 as stated.  With a descriptor in front that matches every
payload, the call on the short payload is a Match, not NeedMoreData; with a descriptor
in front that is inconclusive on the short payload and matches the long one, the second
call returns that descriptor's result, not the one of the detector under consideration. -/
theorem Sniff_short_then_long_counterexample :
    (exHTTPDescriptor ∈ exAnyFirst.sniffer ∧ exHTTPDescriptor.metadataSniffer = false ∧
      exHTTPDescriptor.protocolSniffer (some [71]) 0 =
        (SniffResult.nil, some GoError.ErrNoClue) ∧
      exHTTPDescriptor.protocolSniffer (some [71, 69]) 0 =
        (SniffResult.detected "http" "example.com", none) ∧
      (exAnyFirst.Sniff (some [71]) 0).err = none ∧
      (exAnyFirst.Sniff (some [71]) 0).result = SniffResult.detected "any" "") ∧
    (exHTTPDescriptor ∈ exEagerFirst.sniffer ∧
      (exEagerFirst.Sniff (some [71]) 0).err = some GoError.ErrNoClue ∧
      ((exEagerFirst.Sniff (some [71]) 0).sniffer.Sniff (some [71, 69]) 0).err = none ∧
      ((exEagerFirst.Sniff (some [71]) 0).sniffer.Sniff (some [71, 69]) 0).result =
        SniffResult.detected "eager" "") :=
  ⟨⟨List.mem_cons_of_mem _ (List.mem_cons_self _ _), rfl, rfl, rfl, rfl, rfl⟩,
    ⟨List.mem_cons_of_mem _ (List.mem_cons_self _ _), rfl, rfl, rfl⟩⟩

/-- C2, amended.  Let `d` be a non-metadata descriptor of the list that is inconclusive
on `short` and matches `long` with result `r`.  If no non-metadata descriptor of the
list matches `short`, and no non-metadata descriptor placed before `d` that is
inconclusive on `short` matches `long`, then `Sniff(short)` returns NeedMoreData and
the next `Sniff(long)` on the same instance returns the Match `r`. -/
theorem Sniff_short_then_long (s : Sniffer) (pre : List protocolSnifferWithMetadata)
    (d : protocolSnifferWithMetadata) (post : List protocolSnifferWithMetadata)
    (short long : Bytes) (c1 c2 : Context) (r : SniffResult)
    (hs : s.sniffer = pre ++ d :: post) (hmeta : d.metadataSniffer = false)
    (hshort : (d.protocolSniffer short c1).2 = some GoError.ErrNoClue)
    (hlong : d.protocolSniffer long c2 = (r, none)) (hr : r ≠ SniffResult.nil)
    (hnone : ∀ x ∈ s.sniffer, x.metadataSniffer = false →
      ¬ IsMatch (x.protocolSniffer short c1))
    (hfirst : ∀ x ∈ pre, x.metadataSniffer = false →
      IsNoClue (x.protocolSniffer short c1) → ¬ IsMatch (x.protocolSniffer long c2)) :
    (s.Sniff short c1).result = SniffResult.nil ∧
      (s.Sniff short c1).err = some GoError.ErrNoClue ∧
      ((s.Sniff short c1).sniffer.Sniff long c2).result = r ∧
      ((s.Sniff short c1).sniffer.Sniff long c2).err = none := by
  have hf : s.sniffer.find? (contentMatch short c1) = none := by
    rw [List.find?_eq_none]
    intro x hx hq
    have := contentMatch_iff.mp hq
    exact hnone x hx this.1 this.2
  have hdk : contentNoClue short c1 d = true := contentNoClue_iff.mpr ⟨hmeta, hshort⟩
  have hfil : s.sniffer.filter (contentNoClue short c1) =
      pre.filter (contentNoClue short c1) ++ d :: post.filter (contentNoClue short c1) := by
    rw [hs, List.filter_append, List.filter_cons_of_pos hdk]
  have hlen : (s.sniffer.filter (contentNoClue short c1)).length > 0 := by
    rw [hfil]; simp
  have h1 : s.Sniff short c1 =
      ⟨SniffResult.nil, some GoError.ErrNoClue, ⟨s.sniffer.filter (contentNoClue short c1)⟩,
        contentTrace short c1 s.sniffer⟩ := by
    rw [Sniff_of_find_none hf, if_pos hlen]
  have hdm : contentMatch long c2 d = true := by
    apply contentMatch_iff.mpr
    refine ⟨hmeta, ?_⟩
    unfold IsMatch
    rw [hlong]
    exact ⟨rfl, hr⟩
  have hf2 : (Sniffer.mk (s.sniffer.filter (contentNoClue short c1))).sniffer.find?
      (contentMatch long c2) = some d := by
    show (s.sniffer.filter (contentNoClue short c1)).find? (contentMatch long c2) = some d
    rw [hfil]
    apply find?_of_first _ _ _ _ hdm
    intro x hx
    have hx2 := List.mem_filter.mp hx
    have hk := contentNoClue_iff.mp hx2.2
    cases hq : contentMatch long c2 x with
    | false => rfl
    | true => exact absurd (contentMatch_iff.mp hq).2 (hfirst x hx2.1 hk.1 hk.2)
  rw [h1]
  refine ⟨rfl, rfl, ?_, ?_⟩
  · rw [Sniff_of_find_some hf2]
    show (d.protocolSniffer long c2).1 = r
    rw [hlong]
  · rw [Sniff_of_find_some hf2]

/-- Witness for C2 amended: the example registry on `G` and then on `G E`. -/
theorem Sniff_short_then_long_witness :
    (exSniffer.Sniff (some [71]) 0).result = SniffResult.nil ∧
      (exSniffer.Sniff (some [71]) 0).err = some GoError.ErrNoClue ∧
      ((exSniffer.Sniff (some [71]) 0).sniffer.Sniff (some [71, 69]) 1).result =
        SniffResult.detected "http" "example.com" ∧
      ((exSniffer.Sniff (some [71]) 0).sniffer.Sniff (some [71, 69]) 1).err = none :=
  Sniff_short_then_long exSniffer [] exHTTPDescriptor [exTLSDescriptor, exBittorrentDescriptor]
    (some [71]) (some [71, 69]) 0 1 (SniffResult.detected "http" "example.com")
    rfl rfl rfl rfl (by decide)
    (by
      intro x hx
      have hx2 : x = exHTTPDescriptor ∨ x = exTLSDescriptor ∨ x = exBittorrentDescriptor := by
        simpa [exSniffer, NewSniffer, exHTTPDescriptor, exTLSDescriptor,
          exBittorrentDescriptor] using hx
      rcases hx2 with h | h | h <;> subst h <;> intro _ <;> decide)
    (by
      intro x hx
      exact absurd hx (List.not_mem_nil x))

/-! ## Invocations and the list across calls -/

theorem mem_contentRun {payload : Bytes} {c : Context} {d : protocolSnifferWithMetadata}
    {l : List protocolSnifferWithMetadata} (h : d ∈ contentRun payload c l) :
    d ∈ l ∧ d.metadataSniffer = false := by
  induction l with
  | nil => simp [contentRun] at h
  | cons a rest ih =>
    unfold contentRun at h
    by_cases hm : a.metadataSniffer = true
    · rw [if_pos hm] at h
      exact ⟨List.mem_cons_of_mem _ (ih h).1, (ih h).2⟩
    · rw [if_neg hm] at h
      have ha : a.metadataSniffer = false := by simpa using hm
      by_cases hk : IsMatch (a.protocolSniffer payload c)
      · rw [if_pos hk, List.mem_singleton] at h
        subst h
        exact ⟨List.mem_cons_self _ _, ha⟩
      · rw [if_neg hk, List.mem_cons] at h
        rcases h with h | h
        · subst h
          exact ⟨List.mem_cons_self _ _, ha⟩
        · exact ⟨List.mem_cons_of_mem _ (ih h).1, (ih h).2⟩

theorem mem_metaRun {c : Context} {d : protocolSnifferWithMetadata}
    {l : List protocolSnifferWithMetadata} (h : d ∈ metaRun c l) :
    d ∈ l ∧ d.metadataSniffer = true := by
  induction l with
  | nil => simp [metaRun] at h
  | cons a rest ih =>
    unfold metaRun at h
    by_cases hm : a.metadataSniffer = true
    · have hm2 : ¬ ¬ a.metadataSniffer = true := fun hn => hn hm
      rw [if_neg hm2] at h
      by_cases hk : IsMatch (a.protocolSniffer none c)
      · rw [if_pos hk, List.mem_singleton] at h
        subst h
        exact ⟨List.mem_cons_self _ _, hm⟩
      · rw [if_neg hk, List.mem_cons] at h
        rcases h with h | h
        · subst h
          exact ⟨List.mem_cons_self _ _, hm⟩
        · exact ⟨List.mem_cons_of_mem _ (ih h).1, (ih h).2⟩
    · rw [if_pos hm] at h
      exact ⟨List.mem_cons_of_mem _ (ih h).1, (ih h).2⟩

theorem Sniff_invoked (s : Sniffer) (payload : Bytes) (c : Context) :
    (s.Sniff payload c).invoked = contentTrace payload c s.sniffer := by
  cases h : s.sniffer.find? (contentMatch payload c) with
  | some d => rw [Sniff_of_find_some h]
  | none => rw [Sniff_of_find_none h]; split_ifs <;> rfl

theorem SniffMetadata_invoked (s : Sniffer) (c : Context) :
    (s.SniffMetadata c).invoked = metaTrace c s.sniffer := by
  cases h : s.sniffer.find? (metaMatch c) with
  | some d => rw [SniffMetadata_of_find_some h]
  | none => rw [SniffMetadata_of_find_none h]; split_ifs <;> rfl

/-- A content pass that reports NeedMoreData saw no match and keeps exactly the
inconclusive content descriptors. -/
theorem Sniff_needMore {s : Sniffer} {payload : Bytes} {c : Context}
    (h : (s.Sniff payload c).err = some GoError.ErrNoClue) :
    s.sniffer.find? (contentMatch payload c) = none ∧
      s.sniffer.filter (contentNoClue payload c) ≠ [] ∧
      (s.Sniff payload c).sniffer.sniffer = s.sniffer.filter (contentNoClue payload c) := by
  cases hf : s.sniffer.find? (contentMatch payload c) with
  | some d => rw [Sniff_of_find_some hf] at h; simp at h
  | none =>
    rw [Sniff_of_find_none hf] at h ⊢
    by_cases hl : (s.sniffer.filter (contentNoClue payload c)).length > 0
    · rw [if_pos hl]
      exact ⟨rfl, List.ne_nil_of_length_pos hl, rfl⟩
    · rw [if_neg hl] at h
      simp at h

/-- A content pass that does not report NeedMoreData leaves the receiver as it was. -/
theorem Sniff_frame {s : Sniffer} {payload : Bytes} {c : Context}
    (h : (s.Sniff payload c).err ≠ some GoError.ErrNoClue) :
    (s.Sniff payload c).sniffer = s := by
  cases hf : s.sniffer.find? (contentMatch payload c) with
  | some d => rw [Sniff_of_find_some hf]
  | none =>
    rw [Sniff_of_find_none hf] at h ⊢
    by_cases hl : (s.sniffer.filter (contentNoClue payload c)).length > 0
    · rw [if_pos hl] at h
      exact absurd rfl h
    · rw [if_neg hl]

/-- A metadata pass that reports NeedMoreData saw no match and keeps the content
descriptors and the inconclusive metadata-only ones. -/
theorem SniffMetadata_needMore {s : Sniffer} {c : Context}
    (h : (s.SniffMetadata c).err = some GoError.ErrNoClue) :
    s.sniffer.find? (metaMatch c) = none ∧
      s.sniffer.filter (metaKeep c) ≠ [] ∧
      (s.SniffMetadata c).sniffer.sniffer = s.sniffer.filter (metaKeep c) := by
  cases hf : s.sniffer.find? (metaMatch c) with
  | some d => rw [SniffMetadata_of_find_some hf] at h; simp at h
  | none =>
    rw [SniffMetadata_of_find_none hf] at h ⊢
    by_cases hl : (s.sniffer.filter (metaKeep c)).length > 0
    · rw [if_pos hl]
      exact ⟨rfl, List.ne_nil_of_length_pos hl, rfl⟩
    · rw [if_neg hl] at h
      simp at h

/-- A metadata pass that does not report NeedMoreData leaves the receiver as it was. -/
theorem SniffMetadata_frame {s : Sniffer} {c : Context}
    (h : (s.SniffMetadata c).err ≠ some GoError.ErrNoClue) :
    (s.SniffMetadata c).sniffer = s := by
  cases hf : s.sniffer.find? (metaMatch c) with
  | some d => rw [SniffMetadata_of_find_some hf]
  | none =>
    rw [SniffMetadata_of_find_none hf] at h ⊢
    by_cases hl : (s.sniffer.filter (metaKeep c)).length > 0
    · rw [if_pos hl] at h
      exact absurd rfl h
    · rw [if_neg hl]

theorem Sniff_sublist (s : Sniffer) (payload : Bytes) (c : Context) :
    List.Sublist (s.Sniff payload c).sniffer.sniffer s.sniffer := by
  by_cases h : (s.Sniff payload c).err = some GoError.ErrNoClue
  · rw [(Sniff_needMore h).2.2]
    exact List.filter_sublist _
  · rw [Sniff_frame h]

theorem SniffMetadata_sublist (s : Sniffer) (c : Context) :
    List.Sublist (s.SniffMetadata c).sniffer.sniffer s.sniffer := by
  by_cases h : (s.SniffMetadata c).err = some GoError.ErrNoClue
  · rw [(SniffMetadata_needMore h).2.2]
    exact List.filter_sublist _
  · rw [SniffMetadata_frame h]

theorem call_sublist (s : Sniffer) (r : Request) :
    List.Sublist (s.call r).sniffer.sniffer s.sniffer := by
  cases r with
  | Sniff payload c => exact Sniff_sublist s payload c
  | SniffMetadata c => exact SniffMetadata_sublist s c

theorem after_sublist (s : Sniffer) (rs : List Request) :
    List.Sublist (s.after rs).sniffer s.sniffer := by
  induction rs generalizing s with
  | nil => exact List.Sublist.refl _
  | cons r rs ih => exact (ih (s.call r).sniffer).trans (call_sublist s r)

theorem after_append (s : Sniffer) (a b : List Request) :
    s.after (a ++ b) = (s.after a).after b := by
  induction a generalizing s with
  | nil => rfl
  | cons r a ih => exact ih (s.call r).sniffer

theorem mem_calls {s : Sniffer} {rs : List Request} {k : Call} (h : k ∈ s.calls rs) :
    ∃ (s0 : Sniffer) (r : Request), List.Sublist s0.sniffer s.sniffer ∧ k = s0.call r := by
  induction rs generalizing s with
  | nil => simp [Sniffer.calls] at h
  | cons r rs ih =>
    unfold Sniffer.calls at h
    rw [List.mem_cons] at h
    rcases h with h | h
    · exact ⟨s, r, List.Sublist.refl _, h⟩
    · obtain ⟨s0, r0, hs, hk⟩ := ih h
      exact ⟨s0, r0, hs.trans (call_sublist s r), hk⟩

/-- Every invocation made by a call runs a descriptor of the receiver's list; a content
pass runs non-metadata descriptors on its payload, a metadata pass runs metadata-only
descriptors on the nil payload. -/
theorem call_invoked {s : Sniffer} {r : Request} {j : Invocation}
    (h : j ∈ (s.call r).invoked) :
    j.descriptor ∈ s.sniffer ∧
      match r with
      | .Sniff payload c =>
        j.descriptor.metadataSniffer = false ∧ j.payload = payload ∧ j.ctx = c
      | .SniffMetadata c =>
        j.descriptor.metadataSniffer = true ∧ j.payload = none ∧ j.ctx = c := by
  cases r with
  | Sniff payload c =>
    have h2 : j ∈ contentTrace payload c s.sniffer := by
      rw [← Sniff_invoked]; exact h
    unfold contentTrace at h2
    obtain ⟨d, hd, rfl⟩ := List.mem_map.mp h2
    exact ⟨(mem_contentRun hd).1, (mem_contentRun hd).2, rfl, rfl⟩
  | SniffMetadata c =>
    have h2 : j ∈ metaTrace c s.sniffer := by
      rw [← SniffMetadata_invoked]; exact h
    unfold metaTrace at h2
    obtain ⟨d, hd, rfl⟩ := List.mem_map.mp h2
    exact ⟨(mem_metaRun hd).1, (mem_metaRun hd).2, rfl, rfl⟩

/-- A descriptor that rejected during a call reporting NeedMoreData is not in the list
the call leaves behind. -/
theorem rejected_dropped {s : Sniffer} {r : Request} {i : Invocation}
    (hi : i ∈ (s.call r).invoked)
    (hrej : IsReject (i.descriptor.protocolSniffer i.payload i.ctx))
    (hneed : (s.call r).err = some GoError.ErrNoClue) :
    i.descriptor ∉ (s.call r).sniffer.sniffer := by
  have hinv := call_invoked hi
  have hr := (isReject_iff _).mp hrej
  cases r with
  | Sniff payload c =>
    obtain ⟨_, _, hp, hc⟩ := hinv
    have hn : (s.Sniff payload c).err = some GoError.ErrNoClue := hneed
    show i.descriptor ∉ (s.Sniff payload c).sniffer.sniffer
    rw [(Sniff_needMore hn).2.2]
    intro hmem
    have := contentNoClue_iff.mp (List.mem_filter.mp hmem).2
    rw [hp, hc] at hr
    exact hr.2 this.2
  | SniffMetadata c =>
    obtain ⟨_, hm, hp, hc⟩ := hinv
    have hn : (s.SniffMetadata c).err = some GoError.ErrNoClue := hneed
    show i.descriptor ∉ (s.SniffMetadata c).sniffer.sniffer
    rw [(SniffMetadata_needMore hn).2.2]
    intro hmem
    rw [hp, hc] at hr
    rcases metaKeep_iff.mp (List.mem_filter.mp hmem).2 with h | h
    · rw [hm] at h; exact Bool.noConfusion h
    · exact hr.2 h

/-- Counterexample for C3 as stated.  On a TLS hello the example registry returns a
Match after its first descriptor rejected; on the byte `9` all three reject and the
call reports NoMatch.  In both cases the next `Sniff` on the same instance invokes the
first descriptor again. -/
theorem rejected_invoked_again_counterexample :
    ((exSniffer.Sniff (some [22, 3, 1]) 0).err = none ∧
      (∃ i ∈ (exSniffer.Sniff (some [22, 3, 1]) 0).invoked,
        i.descriptor = exHTTPDescriptor ∧
          IsReject (i.descriptor.protocolSniffer i.payload i.ctx)) ∧
      (∃ j ∈ ((exSniffer.Sniff (some [22, 3, 1]) 0).sniffer.Sniff (some [22, 3, 1, 0]) 1).invoked,
        j.descriptor = exHTTPDescriptor)) ∧
    ((exSniffer.Sniff (some [9]) 0).err = some GoError.errUnknownContent ∧
      (∃ i ∈ (exSniffer.Sniff (some [9]) 0).invoked,
        i.descriptor = exHTTPDescriptor ∧
          IsReject (i.descriptor.protocolSniffer i.payload i.ctx)) ∧
      (∃ j ∈ ((exSniffer.Sniff (some [9]) 0).sniffer.Sniff (some [71, 69]) 1).invoked,
        j.descriptor = exHTTPDescriptor)) := by
  refine ⟨⟨rfl, ⟨⟨exHTTPDescriptor, some [22, 3, 1], 0⟩, ?_, rfl, by decide⟩,
      ⟨⟨exHTTPDescriptor, some [22, 3, 1, 0], 1⟩, ?_, rfl⟩⟩,
    ⟨rfl, ⟨⟨exHTTPDescriptor, some [9], 0⟩, ?_, rfl, by decide⟩,
      ⟨⟨exHTTPDescriptor, some [71, 69], 1⟩, ?_, rfl⟩⟩⟩
  · exact List.mem_cons_self _ _
  · exact List.mem_cons_self _ _
  · exact List.mem_cons_self _ _
  · exact List.mem_cons_self _ _

/-- C3, amended.  In every sequence of calls on a Sniffer instance: once a descriptor's
detector has returned Reject during a call that reported NeedMoreData, that descriptor
is not invoked by any later call on the same instance (no later `Sniff`, and no later
`SniffMetadata` either), whatever the later payloads are. -/
theorem rejected_never_invoked_after_NeedMoreData (s : Sniffer) (before : List Request)
    (r : Request) (later : List Request) (i : Invocation)
    (hi : i ∈ ((s.after before).call r).invoked)
    (hrej : IsReject (i.descriptor.protocolSniffer i.payload i.ctx))
    (hneed : ((s.after before).call r).err = some GoError.ErrNoClue) :
    ∀ k ∈ ((s.after before).call r).sniffer.calls later,
      ∀ j ∈ k.invoked, j.descriptor ≠ i.descriptor := by
  intro k hk j hj heq
  obtain ⟨s0, r0, hsub, rfl⟩ := mem_calls hk
  have hmem : j.descriptor ∈ s0.sniffer := (call_invoked hj).1
  have hgone := rejected_dropped hi hrej hneed
  rw [← heq] at hgone
  exact hgone (hsub.subset hmem)

/-- Witness for C3 amended: on the byte `22` the example registry reports NeedMoreData
after its first descriptor rejected; the next call does not invoke that descriptor. -/
theorem rejected_never_invoked_after_NeedMoreData_witness :
    (exSniffer.Sniff (some [22]) 0).err = some GoError.ErrNoClue ∧
      ∀ k ∈ (exSniffer.Sniff (some [22]) 0).sniffer.calls [Request.Sniff (some [71, 69]) 1],
        ∀ j ∈ k.invoked, j.descriptor ≠ exHTTPDescriptor :=
  ⟨rfl, rejected_never_invoked_after_NeedMoreData exSniffer [] (Request.Sniff (some [22]) 0)
    [Request.Sniff (some [71, 69]) 1] ⟨exHTTPDescriptor, some [22], 0⟩
    (List.mem_cons_self _ _) (by decide) rfl⟩

theorem NewSniffer_no_metadata (h t b : Bytes → SniffHeader × Option GoError) :
    ∀ d ∈ (NewSniffer h t b).sniffer, d.metadataSniffer = false := by
  intro d hd
  simp only [NewSniffer, List.mem_cons, List.mem_singleton, List.not_mem_nil, or_false] at hd
  rcases hd with rfl | rfl | rfl <;> rfl

theorem find?_metaMatch_none_of_no_metadata {l : List protocolSnifferWithMetadata} (c : Context)
    (h : ∀ d ∈ l, d.metadataSniffer = false) : l.find? (metaMatch c) = none := by
  rw [List.find?_eq_none]
  intro d hd hq
  have := (metaMatch_iff.mp hq).1
  rw [h d hd] at this
  exact Bool.noConfusion this

theorem filter_metaKeep_of_no_metadata {l : List protocolSnifferWithMetadata} (c : Context)
    (h : ∀ d ∈ l, d.metadataSniffer = false) : l.filter (metaKeep c) = l := by
  rw [List.filter_eq_self]
  intro d hd
  exact metaKeep_iff.mpr (Or.inl (h d hd))

theorem metaRun_of_no_metadata {l : List protocolSnifferWithMetadata} (c : Context)
    (h : ∀ d ∈ l, d.metadataSniffer = false) : metaRun c l = [] := by
  induction l with
  | nil => rfl
  | cons a rest ih =>
    unfold metaRun
    have ha : a.metadataSniffer = false := h a (List.mem_cons_self _ _)
    simp [ha, ih (fun d hd => h d (List.mem_cons_of_mem _ hd))]

/-- What a metadata pass does on a list without metadata-only descriptors. -/
theorem SniffMetadata_of_no_metadata (s : Sniffer) (c : Context)
    (h : ∀ d ∈ s.sniffer, d.metadataSniffer = false) :
    s.SniffMetadata c =
      ⟨SniffResult.nil,
        if s.sniffer.length > 0 then some GoError.ErrNoClue else some GoError.errUnknownContent,
        s, []⟩ := by
  rw [SniffMetadata_of_find_none (find?_metaMatch_none_of_no_metadata c h),
    filter_metaKeep_of_no_metadata c h]
  unfold metaTrace
  rw [metaRun_of_no_metadata c h]
  split_ifs <;> rfl

theorem exSniffer_no_metadata : ∀ d ∈ exSniffer.sniffer, d.metadataSniffer = false := by
  intro d hd
  simp only [exSniffer, List.mem_cons, List.mem_singleton, List.not_mem_nil, or_false] at hd
  rcases hd with rfl | rfl | rfl <;> rfl

/-- Counterexample for C4 as stated: the example registry has no metadata-only
descriptor, and `SniffMetadata` on it reports NeedMoreData, not NoMatch; the same holds
for the registry built by `NewSniffer` over the example detectors. -/
theorem SniffMetadata_without_metadata_counterexample :
    ((∀ d ∈ exSniffer.sniffer, d.metadataSniffer = false) ∧
      (exSniffer.SniffMetadata 0).result = SniffResult.nil ∧
      (exSniffer.SniffMetadata 0).err = some GoError.ErrNoClue ∧
      (exSniffer.SniffMetadata 0).err ≠ some GoError.errUnknownContent) ∧
    ((∀ d ∈ exDefaultSniffer.sniffer, d.metadataSniffer = false) ∧
      (exDefaultSniffer.SniffMetadata 0).result = SniffResult.nil ∧
      (exDefaultSniffer.SniffMetadata 0).err = some GoError.ErrNoClue ∧
      (exDefaultSniffer.SniffMetadata 0).err ≠ some GoError.errUnknownContent) :=
  ⟨⟨exSniffer_no_metadata, rfl, rfl, by decide⟩,
    ⟨NewSniffer_no_metadata exSniffHTTP exSniffTLS exSniffBittorrent, rfl, rfl, by decide⟩⟩

/-- C4, amended.  For every Sniffer whose list contains no metadata-only descriptor,
`SniffMetadata` invokes no detector and leaves the list as it is; it returns
NeedMoreData `(nil, common.ErrNoClue)` when the list is non-empty, as is the list built
by `NewSniffer`, and NoMatch `(nil, errUnknownContent)` only when the list is empty. -/
theorem SniffMetadata_without_metadata :
    (∀ (s : Sniffer) (c : Context), (∀ d ∈ s.sniffer, d.metadataSniffer = false) →
      (s.SniffMetadata c).result = SniffResult.nil ∧
      (s.SniffMetadata c).invoked = [] ∧
      (s.SniffMetadata c).sniffer = s ∧
      (s.sniffer ≠ [] → (s.SniffMetadata c).err = some GoError.ErrNoClue) ∧
      (s.sniffer = [] → (s.SniffMetadata c).err = some GoError.errUnknownContent)) ∧
    (∀ (h t b : Bytes → SniffHeader × Option GoError) (c : Context),
      ((NewSniffer h t b).SniffMetadata c).result = SniffResult.nil ∧
      ((NewSniffer h t b).SniffMetadata c).err = some GoError.ErrNoClue) := by
  constructor
  · intro s c h
    rw [SniffMetadata_of_no_metadata s c h]
    refine ⟨rfl, rfl, rfl, ?_, ?_⟩
    · intro hne
      have : s.sniffer.length > 0 := List.length_pos.mpr hne
      simp [this]
    · intro he
      simp [he]
  · intro h t b c
    rw [SniffMetadata_of_no_metadata _ c (NewSniffer_no_metadata h t b)]
    exact ⟨rfl, rfl⟩

/-- Witness for C4 amended: the example registry of three content descriptors, and the
empty registry. -/
theorem SniffMetadata_without_metadata_witness :
    (exSniffer.SniffMetadata 0).err = some GoError.ErrNoClue ∧
      ((Sniffer.mk []).SniffMetadata 0).err = some GoError.errUnknownContent :=
  ⟨(SniffMetadata_without_metadata.1 exSniffer 0 exSniffer_no_metadata).2.2.2.1
      (by simp [exSniffer]),
    (SniffMetadata_without_metadata.1 (Sniffer.mk []) 0
      (fun d hd => absurd hd (List.not_mem_nil d))).2.2.2.2 rfl⟩

/-- C5. For all `SniffResult` values `d` and `p`, chosen independently:
`CompositeResult(d, p).Protocol()` equals `p.Protocol()` and
`CompositeResult(d, p).Domain()` equals `d.Domain()`; `Protocol()` of the composite does
not depend on `d` and `Domain()` of the composite does not depend on `p`. -/
theorem CompositeResult_delegates (d p : SniffResult) :
    (CompositeResult d p).Protocol = p.Protocol ∧
      (CompositeResult d p).Domain = d.Domain ∧
      (∀ d2 : SniffResult, (CompositeResult d2 p).Protocol = (CompositeResult d p).Protocol) ∧
      (∀ p2 : SniffResult, (CompositeResult d p2).Domain = (CompositeResult d p).Domain) ∧
      CompositeResult d p ≠ SniffResult.nil :=
  ⟨rfl, rfl, fun _ => rfl, fun _ => rfl, fun h => SniffResult.noConfusion h⟩

/-- C6. In every sequence of `Sniff` and `SniffMetadata` calls, with arbitrary payloads
and contexts: the descriptor list after a call is a sublist of the list before it (same
descriptors, same relative order, none added, none duplicated), hence a sublist of the
list at every earlier point; a descriptor absent at some point is absent at every later
point, and the length never increases. -/
theorem descriptor_list_only_shrinks (s : Sniffer) (before : List Request) (r : Request)
    (later : List Request) :
    List.Sublist ((s.after before).call r).sniffer.sniffer (s.after before).sniffer ∧
      List.Sublist (s.after (before ++ later)).sniffer (s.after before).sniffer ∧
      List.Sublist (s.after (before ++ later)).sniffer s.sniffer ∧
      (∀ d, d ∉ (s.after before).sniffer → d ∉ (s.after (before ++ later)).sniffer) ∧
      (s.after (before ++ later)).sniffer.length ≤ (s.after before).sniffer.length ∧
      ((s.after before).call r).sniffer.sniffer.length ≤ (s.after before).sniffer.length := by
  have h1 : List.Sublist (s.after (before ++ later)).sniffer (s.after before).sniffer := by
    rw [after_append]
    exact after_sublist _ _
  exact ⟨call_sublist _ _, h1, after_sublist _ _, fun d hd hmem => hd (h1.subset hmem),
    h1.length_le, (call_sublist _ _).length_le⟩

/-- Witness for C6: after NeedMoreData on the byte `22` the example registry holds only
its second descriptor, and the first one stays absent through the later calls. -/
theorem descriptor_list_only_shrinks_witness :
    (exSniffer.after [Request.Sniff (some [22]) 0]).sniffer.length = 1 ∧
      (exSniffer.after ([Request.Sniff (some [22]) 0] ++
        [Request.SniffMetadata 1, Request.Sniff (some [22, 3]) 2])).sniffer.length ≤ 1 :=
  ⟨rfl, (descriptor_list_only_shrinks exSniffer [Request.Sniff (some [22]) 0]
    (Request.SniffMetadata 1) [Request.SniffMetadata 1, Request.Sniff (some [22, 3]) 2]).2.2.2.2.1⟩

/-! ## Outcomes of a pass -/

theorem Sniff_outcome (s : Sniffer) (payload : Bytes) (c : Context) :
    ((s.Sniff payload c).result ≠ SniffResult.nil ∧ (s.Sniff payload c).err = none) ∨
      ((s.Sniff payload c).result = SniffResult.nil ∧
        (s.Sniff payload c).err = some GoError.ErrNoClue) ∨
      ((s.Sniff payload c).result = SniffResult.nil ∧
        (s.Sniff payload c).err = some GoError.errUnknownContent) := by
  cases h : s.sniffer.find? (contentMatch payload c) with
  | some d =>
    rw [Sniff_of_find_some h]
    exact Or.inl ⟨(contentMatch_iff.mp (List.find?_some h)).2.2, rfl⟩
  | none =>
    rw [Sniff_of_find_none h]
    split_ifs
    · exact Or.inr (Or.inl ⟨rfl, rfl⟩)
    · exact Or.inr (Or.inr ⟨rfl, rfl⟩)

theorem SniffMetadata_outcome (s : Sniffer) (c : Context) :
    ((s.SniffMetadata c).result ≠ SniffResult.nil ∧ (s.SniffMetadata c).err = none) ∨
      ((s.SniffMetadata c).result = SniffResult.nil ∧
        (s.SniffMetadata c).err = some GoError.ErrNoClue) ∨
      ((s.SniffMetadata c).result = SniffResult.nil ∧
        (s.SniffMetadata c).err = some GoError.errUnknownContent) := by
  cases h : s.sniffer.find? (metaMatch c) with
  | some d =>
    rw [SniffMetadata_of_find_some h]
    exact Or.inl ⟨(metaMatch_iff.mp (List.find?_some h)).2.2, rfl⟩
  | none =>
    rw [SniffMetadata_of_find_none h]
    split_ifs
    · exact Or.inr (Or.inl ⟨rfl, rfl⟩)
    · exact Or.inr (Or.inr ⟨rfl, rfl⟩)

/-- A content pass reports NoMatch exactly when no descriptor is a content match and
none is inconclusive. -/
theorem Sniff_err_unknown_iff (s : Sniffer) (payload : Bytes) (c : Context) :
    (s.Sniff payload c).err = some GoError.errUnknownContent ↔
      ∀ d ∈ s.sniffer, contentMatch payload c d = false ∧ contentNoClue payload c d = false := by
  cases h : s.sniffer.find? (contentMatch payload c) with
  | some d =>
    rw [Sniff_of_find_some h]
    constructor
    · intro he; simp at he
    · intro hall
      have := (hall d (List.mem_of_find?_eq_some h)).1
      rw [List.find?_some h] at this
      exact Bool.noConfusion this
  | none =>
    rw [Sniff_of_find_none h]
    have hn := List.find?_eq_none.mp h
    by_cases hl : (s.sniffer.filter (contentNoClue payload c)).length > 0
    · rw [if_pos hl]
      constructor
      · intro he; simp at he
      · intro hall
        obtain ⟨d, hd⟩ := List.exists_mem_of_length_pos hl
        have hd2 := List.mem_filter.mp hd
        rw [(hall d hd2.1).2] at hd2
        exact Bool.noConfusion hd2.2
    · rw [if_neg hl]
      constructor
      · intro _ d hd
        refine ⟨by simpa using hn d hd, ?_⟩
        cases hq : contentNoClue payload c d with
        | false => rfl
        | true =>
          exact absurd (List.length_pos_of_mem (List.mem_filter.mpr ⟨hd, hq⟩)) hl
      · intro _; rfl

/-- A content pass reports NeedMoreData exactly when no descriptor is a content match
and some descriptor is inconclusive. -/
theorem Sniff_err_noClue_iff (s : Sniffer) (payload : Bytes) (c : Context) :
    (s.Sniff payload c).err = some GoError.ErrNoClue ↔
      (∀ d ∈ s.sniffer, contentMatch payload c d = false) ∧
        ∃ d ∈ s.sniffer, contentNoClue payload c d = true := by
  constructor
  · intro h
    obtain ⟨hf, hne, _⟩ := Sniff_needMore h
    refine ⟨fun d hd => by simpa using List.find?_eq_none.mp hf d hd, ?_⟩
    obtain ⟨d, hd⟩ := List.exists_mem_of_ne_nil _ hne
    exact ⟨d, (List.mem_filter.mp hd).1, (List.mem_filter.mp hd).2⟩
  · rintro ⟨hall, d, hd, hq⟩
    have hf : s.sniffer.find? (contentMatch payload c) = none := by
      rw [List.find?_eq_none]
      intro x hx
      rw [hall x hx]
      exact Bool.false_ne_true
    rw [Sniff_of_find_none hf,
      if_pos (List.length_pos_of_mem (List.mem_filter.mpr ⟨hd, hq⟩))]

/-- Removing from the list a descriptor that the content pass would neither match nor
keep changes neither the returned pair nor the list left by a NeedMoreData call. -/
theorem Sniff_erase (pre : List protocolSnifferWithMetadata) (d : protocolSnifferWithMetadata)
    (post : List protocolSnifferWithMetadata) (payload : Bytes) (c : Context)
    (hm : contentMatch payload c d = false) (hk : contentNoClue payload c d = false) :
    ((Sniffer.mk (pre ++ d :: post)).Sniff payload c).result =
        ((Sniffer.mk (pre ++ post)).Sniff payload c).result ∧
      ((Sniffer.mk (pre ++ d :: post)).Sniff payload c).err =
        ((Sniffer.mk (pre ++ post)).Sniff payload c).err ∧
      (((Sniffer.mk (pre ++ d :: post)).Sniff payload c).err = some GoError.ErrNoClue →
        ((Sniffer.mk (pre ++ d :: post)).Sniff payload c).sniffer =
          ((Sniffer.mk (pre ++ post)).Sniff payload c).sniffer ∧
        d ∉ ((Sniffer.mk (pre ++ d :: post)).Sniff payload c).sniffer.sniffer) := by
  have hfind : (pre ++ d :: post).find? (contentMatch payload c) =
      (pre ++ post).find? (contentMatch payload c) := by
    simp [List.find?_append, List.find?_cons, hm]
  have hfil : (pre ++ d :: post).filter (contentNoClue payload c) =
      (pre ++ post).filter (contentNoClue payload c) := by
    simp [List.filter_append, List.filter_cons, hk]
  cases hf : (pre ++ post).find? (contentMatch payload c) with
  | some d0 =>
    have hf1 : (Sniffer.mk (pre ++ d :: post)).sniffer.find? (contentMatch payload c) =
        some d0 := hfind.trans hf
    have hf2 : (Sniffer.mk (pre ++ post)).sniffer.find? (contentMatch payload c) = some d0 := hf
    rw [Sniff_of_find_some hf1, Sniff_of_find_some hf2]
    refine ⟨rfl, rfl, ?_⟩
    intro he
    simp at he
  | none =>
    have hf1 : (Sniffer.mk (pre ++ d :: post)).sniffer.find? (contentMatch payload c) =
        none := hfind.trans hf
    have hf2 : (Sniffer.mk (pre ++ post)).sniffer.find? (contentMatch payload c) = none := hf
    rw [Sniff_of_find_none hf1, Sniff_of_find_none hf2]
    simp only [hfil]
    by_cases hl : ((pre ++ post).filter (contentNoClue payload c)).length > 0
    · simp only [if_pos hl]
      simp [hk]
    · simp only [if_neg hl]
      simp

/-- Removing from the list a metadata-only descriptor that the metadata pass would
neither match nor keep changes neither the returned pair nor the list left by a
NeedMoreData call. -/
theorem SniffMetadata_erase (pre : List protocolSnifferWithMetadata)
    (d : protocolSnifferWithMetadata) (post : List protocolSnifferWithMetadata) (c : Context)
    (hm : metaMatch c d = false) (hk : metaKeep c d = false) :
    ((Sniffer.mk (pre ++ d :: post)).SniffMetadata c).result =
        ((Sniffer.mk (pre ++ post)).SniffMetadata c).result ∧
      ((Sniffer.mk (pre ++ d :: post)).SniffMetadata c).err =
        ((Sniffer.mk (pre ++ post)).SniffMetadata c).err ∧
      (((Sniffer.mk (pre ++ d :: post)).SniffMetadata c).err = some GoError.ErrNoClue →
        ((Sniffer.mk (pre ++ d :: post)).SniffMetadata c).sniffer =
          ((Sniffer.mk (pre ++ post)).SniffMetadata c).sniffer ∧
        d ∉ ((Sniffer.mk (pre ++ d :: post)).SniffMetadata c).sniffer.sniffer) := by
  have hfind : (pre ++ d :: post).find? (metaMatch c) = (pre ++ post).find? (metaMatch c) := by
    simp [List.find?_append, List.find?_cons, hm]
  have hfil : (pre ++ d :: post).filter (metaKeep c) = (pre ++ post).filter (metaKeep c) := by
    simp [List.filter_append, List.filter_cons, hk]
  cases hf : (pre ++ post).find? (metaMatch c) with
  | some d0 =>
    have hf1 : (Sniffer.mk (pre ++ d :: post)).sniffer.find? (metaMatch c) = some d0 :=
      hfind.trans hf
    have hf2 : (Sniffer.mk (pre ++ post)).sniffer.find? (metaMatch c) = some d0 := hf
    rw [SniffMetadata_of_find_some hf1, SniffMetadata_of_find_some hf2]
    refine ⟨rfl, rfl, ?_⟩
    intro he
    simp at he
  | none =>
    have hf1 : (Sniffer.mk (pre ++ d :: post)).sniffer.find? (metaMatch c) = none :=
      hfind.trans hf
    have hf2 : (Sniffer.mk (pre ++ post)).sniffer.find? (metaMatch c) = none := hf
    rw [SniffMetadata_of_find_none hf1, SniffMetadata_of_find_none hf2]
    simp only [hfil]
    by_cases hl : ((pre ++ post).filter (metaKeep c)).length > 0
    · simp only [if_pos hl]
      simp [hk]
    · simp only [if_neg hl]
      simp

/-- A detector return carrying an error other than `common.ErrNoClue` is neither a
Match nor Inconclusive. -/
theorem error_return_rejects {ret : SniffResult × Option GoError} {e : GoError}
    (he : ret.2 = some e) (hne : e ≠ GoError.ErrNoClue) : ¬ IsMatch ret ∧ ¬ IsNoClue ret := by
  unfold IsMatch IsNoClue
  rw [he]
  refine ⟨fun h => Option.noConfusion h.1, fun h => hne (Option.some.inj h)⟩

/-- Counterexample for C7 as stated.  A detector may fail with the error value
`errUnknownContent`, which is not `common.ErrNoClue`.  On a list holding only such a
descriptor, `Sniff` returns the very error the detector returned, and so does
`SniffMetadata` when the descriptor is metadata-only. -/
theorem detector_error_returned_counterexample :
    (exUnknownDescriptor ∈ (Sniffer.mk [exUnknownDescriptor]).sniffer ∧
      (exUnknownDescriptor.protocolSniffer (some [9]) 0).2 =
        some GoError.errUnknownContent ∧
      GoError.errUnknownContent ≠ GoError.ErrNoClue ∧
      ((Sniffer.mk [exUnknownDescriptor]).Sniff (some [9]) 0).err =
        (exUnknownDescriptor.protocolSniffer (some [9]) 0).2) ∧
    (exUnknownMetaDescriptor ∈ (Sniffer.mk [exUnknownMetaDescriptor]).sniffer ∧
      (exUnknownMetaDescriptor.protocolSniffer none 0).2 = some GoError.errUnknownContent ∧
      ((Sniffer.mk [exUnknownMetaDescriptor]).SniffMetadata 0).err =
        (exUnknownMetaDescriptor.protocolSniffer none 0).2) :=
  ⟨⟨List.mem_cons_self _ _, rfl, by decide, rfl⟩, ⟨List.mem_cons_self _ _, rfl, rfl⟩⟩

/-- C7, amended.  For every descriptor list, payload and detector behaviour, `Sniff` and
`SniffMetadata` each return one of three outcomes: `(r, nil)` with `r` non-nil,
`(nil, common.ErrNoClue)` or `(nil, errUnknownContent)`; an error that is neither
`common.ErrNoClue` nor `errUnknownContent` is never the error returned by the engine.
A detector error other than `common.ErrNoClue`, `errUnknownContent` included, changes
nothing but the fate of its descriptor: the returned pair is the one obtained with that
descriptor removed from the list, and when the call reports NeedMoreData the list left
behind is the same as with the descriptor removed, and does not contain it. -/
theorem detector_errors_do_not_escape :
    (∀ (s : Sniffer) (payload : Bytes) (c : Context),
      (((s.Sniff payload c).result ≠ SniffResult.nil ∧ (s.Sniff payload c).err = none) ∨
        ((s.Sniff payload c).result = SniffResult.nil ∧
          (s.Sniff payload c).err = some GoError.ErrNoClue) ∨
        ((s.Sniff payload c).result = SniffResult.nil ∧
          (s.Sniff payload c).err = some GoError.errUnknownContent)) ∧
      ∀ e, e ≠ GoError.ErrNoClue → e ≠ GoError.errUnknownContent →
        (s.Sniff payload c).err ≠ some e) ∧
    (∀ (s : Sniffer) (c : Context),
      (((s.SniffMetadata c).result ≠ SniffResult.nil ∧ (s.SniffMetadata c).err = none) ∨
        ((s.SniffMetadata c).result = SniffResult.nil ∧
          (s.SniffMetadata c).err = some GoError.ErrNoClue) ∨
        ((s.SniffMetadata c).result = SniffResult.nil ∧
          (s.SniffMetadata c).err = some GoError.errUnknownContent)) ∧
      ∀ e, e ≠ GoError.ErrNoClue → e ≠ GoError.errUnknownContent →
        (s.SniffMetadata c).err ≠ some e) ∧
    (∀ (pre : List protocolSnifferWithMetadata) (d : protocolSnifferWithMetadata)
        (post : List protocolSnifferWithMetadata) (payload : Bytes) (c : Context) (e : GoError),
      d.metadataSniffer = false → (d.protocolSniffer payload c).2 = some e →
      e ≠ GoError.ErrNoClue →
      ((Sniffer.mk (pre ++ d :: post)).Sniff payload c).result =
          ((Sniffer.mk (pre ++ post)).Sniff payload c).result ∧
        ((Sniffer.mk (pre ++ d :: post)).Sniff payload c).err =
          ((Sniffer.mk (pre ++ post)).Sniff payload c).err ∧
        (((Sniffer.mk (pre ++ d :: post)).Sniff payload c).err = some GoError.ErrNoClue →
          ((Sniffer.mk (pre ++ d :: post)).Sniff payload c).sniffer =
            ((Sniffer.mk (pre ++ post)).Sniff payload c).sniffer ∧
          d ∉ ((Sniffer.mk (pre ++ d :: post)).Sniff payload c).sniffer.sniffer)) ∧
    (∀ (pre : List protocolSnifferWithMetadata) (d : protocolSnifferWithMetadata)
        (post : List protocolSnifferWithMetadata) (c : Context) (e : GoError),
      d.metadataSniffer = true → (d.protocolSniffer none c).2 = some e →
      e ≠ GoError.ErrNoClue →
      ((Sniffer.mk (pre ++ d :: post)).SniffMetadata c).result =
          ((Sniffer.mk (pre ++ post)).SniffMetadata c).result ∧
        ((Sniffer.mk (pre ++ d :: post)).SniffMetadata c).err =
          ((Sniffer.mk (pre ++ post)).SniffMetadata c).err ∧
        (((Sniffer.mk (pre ++ d :: post)).SniffMetadata c).err = some GoError.ErrNoClue →
          ((Sniffer.mk (pre ++ d :: post)).SniffMetadata c).sniffer =
            ((Sniffer.mk (pre ++ post)).SniffMetadata c).sniffer ∧
          d ∉ ((Sniffer.mk (pre ++ d :: post)).SniffMetadata c).sniffer.sniffer)) := by
  refine ⟨?_, ?_, ?_, ?_⟩
  · intro s payload c
    refine ⟨Sniff_outcome s payload c, ?_⟩
    intro e h1 h2 hn
    rcases Sniff_outcome s payload c with h | h | h <;> rw [h.2] at hn
    · exact Option.noConfusion hn
    · exact h1 (Option.some.inj hn).symm
    · exact h2 (Option.some.inj hn).symm
  · intro s c
    refine ⟨SniffMetadata_outcome s c, ?_⟩
    intro e h1 h2 hn
    rcases SniffMetadata_outcome s c with h | h | h <;> rw [h.2] at hn
    · exact Option.noConfusion hn
    · exact h1 (Option.some.inj hn).symm
    · exact h2 (Option.some.inj hn).symm
  · intro pre d post payload c e hmeta he hne
    have hr := error_return_rejects he hne
    apply Sniff_erase
    · simp [contentMatch, hr.1]
    · simp [contentNoClue, hr.2]
  · intro pre d post c e hmeta he hne
    have hr := error_return_rejects he hne
    apply SniffMetadata_erase
    · simp [metaMatch, hr.1]
    · simp [metaKeep, hr.2, hmeta]

/-- Witness for C7 amended: a descriptor returning a non-nil result together with its own error,
placed in front of the example TLS descriptor, does not alter what `Sniff` returns on a
TLS hello; a failing metadata-only descriptor does not alter `SniffMetadata`. -/
theorem detector_errors_do_not_escape_witness :
    ((Sniffer.mk ([] ++ exNoisyDescriptor :: [exTLSDescriptor])).Sniff (some [22, 3]) 0).result =
        SniffResult.detected "tls" "tls.example.com" ∧
      ((Sniffer.mk ([] ++ exNoisyDescriptor :: [exTLSDescriptor])).Sniff (some [22, 3]) 0).err =
        none ∧
      ((Sniffer.mk ([] ++ exFailingMetaDescriptor :: [exHTTPDescriptor])).SniffMetadata 0).err =
        some GoError.ErrNoClue :=
  ⟨(detector_errors_do_not_escape.2.2.1 [] exNoisyDescriptor [exTLSDescriptor] (some [22, 3]) 0
      (GoError.other 7) rfl rfl (by decide)).1,
    (detector_errors_do_not_escape.2.2.1 [] exNoisyDescriptor [exTLSDescriptor] (some [22, 3]) 0
      (GoError.other 7) rfl rfl (by decide)).2.1,
    (detector_errors_do_not_escape.2.2.2 [] exFailingMetaDescriptor [exHTTPDescriptor] 0
      (GoError.other 8) rfl rfl (by decide)).2.1⟩

theorem toSniffResult_ne_nil (p : SniffHeader) : p.toSniffResult ≠ SniffResult.nil := by
  cases p <;> exact fun h => SniffResult.noConfusion h

/-- What a closure of `NewSniffer` returns is a Reject exactly when the error of the
detector behind it is neither nil nor `common.ErrNoClue`: its pointer result, nil or
not, is a non-nil `SniffResult`. -/
theorem closure_reject_iff (p : SniffHeader) (e : Option GoError) :
    IsReject (p.toSniffResult, e) ↔ e ≠ none ∧ e ≠ some GoError.ErrNoClue := by
  have hp := toSniffResult_ne_nil p
  unfold IsReject
  constructor
  · rintro (⟨h1, _⟩ | h)
    · exact absurd h1 hp
    · exact h
  · intro h
    exact Or.inr h

/-- The registry built by `NewSniffer` returns a detector's nil pointer with a nil error
as a Match: the closure converts the pointer to a non-nil `SniffResult`, which passes
the test `result != nil`. -/
theorem NewSniffer_nil_pointer_is_match :
    ((NewSniffer exSniffHTTP exSniffTLS exSniffBittorrentLax).Sniff (some [9]) 0).result =
        SniffResult.typedNil (some "bittorrent") (some "") ∧
      ((NewSniffer exSniffHTTP exSniffTLS exSniffBittorrentLax).Sniff (some [9]) 0).err =
        none :=
  ⟨rfl, rfl⟩

/-- C8. `Sniff` returns NoMatch `(nil, errUnknownContent)` if and only if every
non-metadata descriptor of the list rejects the payload, that is, returns neither a
Match nor `common.ErrNoClue`; this includes a list without any non-metadata descriptor;
and on the three-descriptor list of `NewSniffer`, a payload rejected by all three
detectors of the list yields NoMatch.  A detector of that list is a closure around a
function of a protocol package and rejects exactly when that function returns an error
that is neither nil nor `common.ErrNoClue`, so the list of `NewSniffer` reports NoMatch
if and only if all three functions return such an error. -/
theorem Sniff_NoMatch_iff_all_reject (s : Sniffer) (payload : Bytes) (c : Context)
    (h t b : Bytes → SniffHeader × Option GoError) :
    (((s.Sniff payload c).result = SniffResult.nil ∧
        (s.Sniff payload c).err = some GoError.errUnknownContent) ↔
      ∀ d ∈ s.sniffer, d.metadataSniffer = false →
        ¬ IsMatch (d.protocolSniffer payload c) ∧ ¬ IsNoClue (d.protocolSniffer payload c)) ∧
    (((s.Sniff payload c).result = SniffResult.nil ∧
        (s.Sniff payload c).err = some GoError.errUnknownContent) ↔
      ∀ d ∈ s.sniffer, d.metadataSniffer = false → IsReject (d.protocolSniffer payload c)) ∧
    ((∀ d ∈ s.sniffer, d.metadataSniffer = true) →
      (s.Sniff payload c).result = SniffResult.nil ∧
        (s.Sniff payload c).err = some GoError.errUnknownContent) ∧
    ((∀ d ∈ (NewSniffer h t b).sniffer, IsReject (d.protocolSniffer payload c)) →
      ((NewSniffer h t b).Sniff payload c).result = SniffResult.nil ∧
        ((NewSniffer h t b).Sniff payload c).err = some GoError.errUnknownContent) ∧
    ((((NewSniffer h t b).Sniff payload c).result = SniffResult.nil ∧
        ((NewSniffer h t b).Sniff payload c).err = some GoError.errUnknownContent) ↔
      ((h payload).2 ≠ none ∧ (h payload).2 ≠ some GoError.ErrNoClue) ∧
        ((t payload).2 ≠ none ∧ (t payload).2 ≠ some GoError.ErrNoClue) ∧
        ((b payload).2 ≠ none ∧ (b payload).2 ≠ some GoError.ErrNoClue)) := by
  have key : ∀ s0 : Sniffer,
      (((s0.Sniff payload c).result = SniffResult.nil ∧
          (s0.Sniff payload c).err = some GoError.errUnknownContent) ↔
        ∀ d ∈ s0.sniffer, d.metadataSniffer = false →
          ¬ IsMatch (d.protocolSniffer payload c) ∧
            ¬ IsNoClue (d.protocolSniffer payload c)) := by
    intro s0
    constructor
    · rintro ⟨_, he⟩ d hd hmeta
      have := (Sniff_err_unknown_iff s0 payload c).mp he d hd
      simpa [contentMatch, contentNoClue, hmeta] using this
    · intro hall
      have he : (s0.Sniff payload c).err = some GoError.errUnknownContent := by
        rw [Sniff_err_unknown_iff]
        intro d hd
        cases hmeta : d.metadataSniffer with
        | true => simp [contentMatch, contentNoClue, hmeta]
        | false =>
          have := hall d hd hmeta
          simp [contentMatch, contentNoClue, hmeta, this.1, this.2]
      refine ⟨?_, he⟩
      rcases Sniff_outcome s0 payload c with h1 | h1 | h1
      · rw [h1.2] at he; simp at he
      · exact h1.1
      · exact h1.1
  have key2 : ∀ s0 : Sniffer,
      (((s0.Sniff payload c).result = SniffResult.nil ∧
          (s0.Sniff payload c).err = some GoError.errUnknownContent) ↔
        ∀ d ∈ s0.sniffer, d.metadataSniffer = false →
          IsReject (d.protocolSniffer payload c)) := by
    intro s0
    rw [key s0]
    constructor
    · intro hall d hd hmeta
      exact (isReject_iff _).mpr (hall d hd hmeta)
    · intro hall d hd hmeta
      exact (isReject_iff _).mp (hall d hd hmeta)
  refine ⟨key s, key2 s, ?_, ?_, ?_⟩
  · intro hall
    rw [key s]
    intro d hd hmeta
    rw [hall d hd] at hmeta
    exact Bool.noConfusion hmeta
  · intro hall
    rw [key2 (NewSniffer h t b)]
    intro d hd _
    exact hall d hd
  · rw [key2 (NewSniffer h t b)]
    simp only [NewSniffer, List.mem_cons, List.mem_singleton, List.not_mem_nil, or_false,
      forall_eq_or_imp, forall_eq, true_implies, closure_reject_iff]

/-- Witness for C8: the byte `9` is rejected by the three descriptors of the example
registry, which reports NoMatch; the three example detectors answer it with an error of
their own, and the registry built by `NewSniffer` over them reports NoMatch. -/
theorem Sniff_NoMatch_iff_all_reject_witness :
    ((exSniffer.Sniff (some [9]) 0).result = SniffResult.nil ∧
      (exSniffer.Sniff (some [9]) 0).err = some GoError.errUnknownContent) ∧
    ((exDefaultSniffer.Sniff (some [9]) 0).result = SniffResult.nil ∧
      (exDefaultSniffer.Sniff (some [9]) 0).err = some GoError.errUnknownContent) :=
  ⟨(Sniff_NoMatch_iff_all_reject exSniffer (some [9]) 0
      exSniffHTTP exSniffTLS exSniffBittorrent).2.1.mpr
      (by
        intro d hd
        simp only [exSniffer, List.mem_cons, List.mem_singleton, List.not_mem_nil,
          or_false] at hd
        rcases hd with rfl | rfl | rfl <;> intro _ <;> decide),
    (Sniff_NoMatch_iff_all_reject exSniffer (some [9]) 0
      exSniffHTTP exSniffTLS exSniffBittorrent).2.2.2.1
      (by
        intro d hd
        simp only [NewSniffer, List.mem_cons, List.mem_singleton, List.not_mem_nil,
          or_false] at hd
        rcases hd with rfl | rfl | rfl <;> decide)⟩

/-- C9. `Sniff` returns NeedMoreData `(nil, common.ErrNoClue)` if and only if no
non-metadata descriptor matches the payload and at least one returns Inconclusive; the
list after such a call is exactly the sequence of non-metadata descriptors of the old
list whose detector returned Inconclusive on this payload, in their original order, so
it holds no rejected descriptor and no metadata-only descriptor. -/
theorem Sniff_NeedMoreData_iff (s : Sniffer) (payload : Bytes) (c : Context) :
    (((s.Sniff payload c).result = SniffResult.nil ∧
        (s.Sniff payload c).err = some GoError.ErrNoClue) ↔
      (∀ d ∈ s.sniffer, d.metadataSniffer = false → ¬ IsMatch (d.protocolSniffer payload c)) ∧
        ∃ d ∈ s.sniffer, d.metadataSniffer = false ∧ IsNoClue (d.protocolSniffer payload c)) ∧
    ((s.Sniff payload c).err = some GoError.ErrNoClue →
      (s.Sniff payload c).sniffer.sniffer =
          s.sniffer.filter
            (fun d => !d.metadataSniffer && decide (IsNoClue (d.protocolSniffer payload c))) ∧
        List.Sublist (s.Sniff payload c).sniffer.sniffer s.sniffer ∧
        ∀ d ∈ (s.Sniff payload c).sniffer.sniffer,
          d.metadataSniffer = false ∧ IsNoClue (d.protocolSniffer payload c) ∧
            ¬ IsReject (d.protocolSniffer payload c)) := by
  constructor
  · constructor
    · rintro ⟨_, he⟩
      obtain ⟨hall, d, hd, hq⟩ := (Sniff_err_noClue_iff s payload c).mp he
      refine ⟨?_, d, hd, contentNoClue_iff.mp hq⟩
      intro x hx hmeta hm
      have := hall x hx
      rw [contentMatch_iff.mpr ⟨hmeta, hm⟩] at this
      exact Bool.noConfusion this
    · rintro ⟨hall, d, hd, hmeta, hk⟩
      have he : (s.Sniff payload c).err = some GoError.ErrNoClue := by
        rw [Sniff_err_noClue_iff]
        refine ⟨?_, d, hd, contentNoClue_iff.mpr ⟨hmeta, hk⟩⟩
        intro x hx
        cases hq : contentMatch payload c x with
        | false => rfl
        | true =>
          have := contentMatch_iff.mp hq
          exact absurd this.2 (hall x hx this.1)
      refine ⟨?_, he⟩
      rcases Sniff_outcome s payload c with h1 | h1 | h1
      · rw [h1.2] at he; simp at he
      · exact h1.1
      · exact h1.1
  · intro he
    have hnew := (Sniff_needMore he).2.2
    refine ⟨hnew, Sniff_sublist s payload c, ?_⟩
    intro d hd
    rw [hnew] at hd
    have hk := contentNoClue_iff.mp (List.mem_filter.mp hd).2
    exact ⟨hk.1, hk.2, fun hrej => ((isReject_iff _).mp hrej).2 hk.2⟩

/-- Witness for C9: on the byte `22` the example registry reports NeedMoreData and
keeps only its second descriptor. -/
theorem Sniff_NeedMoreData_iff_witness :
    (exSniffer.Sniff (some [22]) 0).sniffer.sniffer =
        exSniffer.sniffer.filter
          (fun d => !d.metadataSniffer && decide (IsNoClue (d.protocolSniffer (some [22]) 0))) ∧
      (exSniffer.Sniff (some [22]) 0).sniffer.sniffer = [exTLSDescriptor] :=
  ⟨((Sniff_NeedMoreData_iff exSniffer (some [22]) 0).2 rfl).1, rfl⟩

/-- C10. `SniffMetadata` invokes only descriptors of the list flagged metadata-only,
each with the nil payload, and never a non-metadata descriptor; it returns a result
with a nil error if and only if some metadata-only descriptor matches on the nil
payload, and the result is then the one of the earliest such descriptor in list
order. -/
theorem SniffMetadata_runs_metadata_only (s : Sniffer) (c : Context) :
    (∀ j ∈ (s.SniffMetadata c).invoked,
      j.descriptor ∈ s.sniffer ∧ j.descriptor.metadataSniffer = true ∧
        j.payload = none ∧ j.ctx = c) ∧
    ((s.SniffMetadata c).err = none ↔
      ∃ d ∈ s.sniffer, d.metadataSniffer = true ∧ IsMatch (d.protocolSniffer none c)) ∧
    ((s.SniffMetadata c).err = none → (s.SniffMetadata c).result ≠ SniffResult.nil) ∧
    (∀ pre d post, s.sniffer = pre ++ d :: post →
      d.metadataSniffer = true → IsMatch (d.protocolSniffer none c) →
      (∀ x ∈ pre, x.metadataSniffer = true → ¬ IsMatch (x.protocolSniffer none c)) →
      (s.SniffMetadata c).result = (d.protocolSniffer none c).1 ∧
        (s.SniffMetadata c).err = none) := by
  refine ⟨?_, ?_, ?_, ?_⟩
  · intro j hj
    have hj2 : j ∈ (s.call (Request.SniffMetadata c)).invoked := hj
    have := call_invoked hj2
    exact ⟨this.1, this.2⟩
  · rw [SniffMetadata_err_none_iff]
    simp only [metaMatch_iff]
  · intro he
    rcases SniffMetadata_outcome s c with h1 | h1 | h1
    · exact h1.1
    · rw [h1.2] at he; simp at he
    · rw [h1.2] at he; simp at he
  · intro pre d post hs hmeta hmatch hpre
    have hf : s.sniffer.find? (metaMatch c) = some d := by
      rw [hs]
      apply find?_of_first _ _ _ _ (metaMatch_iff.mpr ⟨hmeta, hmatch⟩)
      intro x hx
      cases hq : metaMatch c x with
      | false => rfl
      | true =>
        have := metaMatch_iff.mp hq
        exact absurd this.2 (hpre x hx this.1)
    rw [SniffMetadata_of_find_some hf]
    exact ⟨rfl, rfl⟩

/-- Witness for C10: with a metadata-only descriptor in front of the three of `exSniffer`,
`SniffMetadata` returns the result of that descriptor. -/
theorem SniffMetadata_runs_metadata_only_witness :
    (exWithMeta.SniffMetadata 0).result = SniffResult.detected "fakedns" "meta.example.com" ∧
      (exWithMeta.SniffMetadata 0).err = none :=
  (SniffMetadata_runs_metadata_only exWithMeta 0).2.2.2 [] exMetaDescriptor
    [exHTTPDescriptor, exTLSDescriptor, exBittorrentDescriptor] rfl rfl (by decide)
    (fun x hx => absurd hx (List.not_mem_nil x))

/-! ## The content pass sees only the non-metadata descriptors -/

theorem find?_contentMatch_contentOnly (payload : Bytes) (c : Context)
    (l : List protocolSnifferWithMetadata) :
    (contentOnly l).find? (contentMatch payload c) = l.find? (contentMatch payload c) := by
  induction l with
  | nil => rfl
  | cons a rest ih =>
    unfold contentOnly at ih ⊢
    cases hm : a.metadataSniffer with
    | true => simp [List.filter_cons, List.find?_cons, hm, contentMatch, ih]
    | false => simp [List.filter_cons, List.find?_cons, hm, ih]

theorem filter_contentNoClue_contentOnly (payload : Bytes) (c : Context)
    (l : List protocolSnifferWithMetadata) :
    (contentOnly l).filter (contentNoClue payload c) = l.filter (contentNoClue payload c) := by
  induction l with
  | nil => rfl
  | cons a rest ih =>
    unfold contentOnly at ih ⊢
    cases hm : a.metadataSniffer with
    | true => simp [List.filter_cons, hm, contentNoClue, ih]
    | false => simp [List.filter_cons, hm, ih]

theorem contentRun_contentOnly (payload : Bytes) (c : Context)
    (l : List protocolSnifferWithMetadata) :
    contentRun payload c (contentOnly l) = contentRun payload c l := by
  induction l with
  | nil => rfl
  | cons a rest ih =>
    unfold contentOnly at ih ⊢
    cases hm : a.metadataSniffer with
    | true => simp [List.filter_cons, hm, contentRun, ih]
    | false => simp [List.filter_cons, hm, contentRun, ih]

theorem contentOnly_filter_metaKeep (c : Context) (l : List protocolSnifferWithMetadata) :
    contentOnly (l.filter (metaKeep c)) = contentOnly l := by
  unfold contentOnly
  rw [List.filter_filter]
  apply List.filter_congr
  intro d _
  cases hm : d.metadataSniffer <;> simp [metaKeep, hm]

theorem contentOnly_filter_contentNoClue (payload : Bytes) (c : Context)
    (l : List protocolSnifferWithMetadata) :
    contentOnly (l.filter (contentNoClue payload c)) = l.filter (contentNoClue payload c) := by
  unfold contentOnly
  rw [List.filter_eq_self]
  intro d hd
  have := (contentNoClue_iff.mp (List.mem_filter.mp hd).2).1
  simp [this]

/-- The non-metadata descriptors are the same before and after a metadata pass. -/
theorem contentOnly_SniffMetadata (s : Sniffer) (c : Context) :
    contentOnly (s.SniffMetadata c).sniffer.sniffer = contentOnly s.sniffer := by
  by_cases h : (s.SniffMetadata c).err = some GoError.ErrNoClue
  · rw [(SniffMetadata_needMore h).2.2, contentOnly_filter_metaKeep]
  · rw [SniffMetadata_frame h]

/-- Two receivers with the same non-metadata descriptors get the same answer from a
content pass, with the same invocations, and keep the same non-metadata descriptors. -/
theorem Sniff_congr (s1 s2 : Sniffer) (payload : Bytes) (c : Context)
    (h : contentOnly s1.sniffer = contentOnly s2.sniffer) :
    (s1.Sniff payload c).result = (s2.Sniff payload c).result ∧
      (s1.Sniff payload c).err = (s2.Sniff payload c).err ∧
      (s1.Sniff payload c).invoked = (s2.Sniff payload c).invoked ∧
      contentOnly (s1.Sniff payload c).sniffer.sniffer =
        contentOnly (s2.Sniff payload c).sniffer.sniffer := by
  have hfind : s1.sniffer.find? (contentMatch payload c) =
      s2.sniffer.find? (contentMatch payload c) := by
    rw [← find?_contentMatch_contentOnly, h, find?_contentMatch_contentOnly]
  have hfil : s1.sniffer.filter (contentNoClue payload c) =
      s2.sniffer.filter (contentNoClue payload c) := by
    rw [← filter_contentNoClue_contentOnly, h, filter_contentNoClue_contentOnly]
  have hrun : contentTrace payload c s1.sniffer = contentTrace payload c s2.sniffer := by
    unfold contentTrace
    rw [← contentRun_contentOnly, h, contentRun_contentOnly]
  cases hf : s2.sniffer.find? (contentMatch payload c) with
  | some d =>
    rw [Sniff_of_find_some (hfind.trans hf), Sniff_of_find_some hf]
    exact ⟨rfl, rfl, hrun, h⟩
  | none =>
    rw [Sniff_of_find_none (hfind.trans hf), Sniff_of_find_none hf, hfil, hrun]
    by_cases hl : (s2.sniffer.filter (contentNoClue payload c)).length > 0
    · rw [if_pos hl, if_pos hl]
      exact ⟨rfl, rfl, rfl, rfl⟩
    · rw [if_neg hl, if_neg hl]
      exact ⟨rfl, rfl, rfl, h⟩

/-- C11. For every descriptor list and every outcome of `SniffMetadata`, the
non-metadata descriptors of the list after the call are the non-metadata descriptors
before it, in the same order; hence a later `Sniff` on any payload returns the same
pair, makes the same detector invocations and leaves the same non-metadata descriptors
as it would have without the `SniffMetadata` call. -/
theorem SniffMetadata_preserves_content_descriptors (s : Sniffer) (c : Context)
    (payload : Bytes) (c2 : Context) :
    contentOnly (s.SniffMetadata c).sniffer.sniffer = contentOnly s.sniffer ∧
      ((s.SniffMetadata c).sniffer.Sniff payload c2).result = (s.Sniff payload c2).result ∧
      ((s.SniffMetadata c).sniffer.Sniff payload c2).err = (s.Sniff payload c2).err ∧
      ((s.SniffMetadata c).sniffer.Sniff payload c2).invoked = (s.Sniff payload c2).invoked ∧
      contentOnly ((s.SniffMetadata c).sniffer.Sniff payload c2).sniffer.sniffer =
        contentOnly (s.Sniff payload c2).sniffer.sniffer :=
  ⟨contentOnly_SniffMetadata s c,
    Sniff_congr (s.SniffMetadata c).sniffer s payload c2 (contentOnly_SniffMetadata s c)⟩

theorem contentRun_of_no_match {payload : Bytes} {c : Context}
    {l : List protocolSnifferWithMetadata}
    (h : ∀ x ∈ l, x.metadataSniffer = false → ¬ IsMatch (x.protocolSniffer payload c)) :
    contentRun payload c l = contentOnly l := by
  induction l with
  | nil => rfl
  | cons a rest ih =>
    have ih2 := ih (fun x hx => h x (List.mem_cons_of_mem _ hx))
    unfold contentOnly at ih2 ⊢
    cases hm : a.metadataSniffer with
    | true => simp [contentRun, List.filter_cons, hm, ih2]
    | false =>
      have := h a (List.mem_cons_self _ _) hm
      simp [contentRun, List.filter_cons, hm, ih2, this]

theorem contentRun_of_first_match {payload : Bytes} {c : Context}
    (pre : List protocolSnifferWithMetadata) (d : protocolSnifferWithMetadata)
    (post : List protocolSnifferWithMetadata)
    (hmeta : d.metadataSniffer = false) (hmatch : IsMatch (d.protocolSniffer payload c))
    (h : ∀ x ∈ pre, x.metadataSniffer = false → ¬ IsMatch (x.protocolSniffer payload c)) :
    contentRun payload c (pre ++ d :: post) = contentOnly pre ++ [d] := by
  induction pre with
  | nil => simp [contentRun, contentOnly, hmeta, hmatch]
  | cons a rest ih =>
    have ih2 := ih (fun x hx => h x (List.mem_cons_of_mem _ hx))
    unfold contentOnly at ih2 ⊢
    cases hm : a.metadataSniffer with
    | true => simp [contentRun, List.filter_cons, hm, ih2]
    | false =>
      have := h a (List.mem_cons_self _ _) hm
      simp [contentRun, List.filter_cons, hm, ih2, this]

/-- C12. The detector invocations made by one `Sniff` call are exactly the non-metadata
descriptors of the list, in list order, each once and with the given payload, up to and
including the first one that matches, and all of them if none matches; nothing placed
after the first match is invoked, and no metadata-only descriptor is invoked. -/
theorem Sniff_invocation_order (s : Sniffer) (payload : Bytes) (c : Context) :
    (∀ j ∈ (s.Sniff payload c).invoked,
      j.descriptor ∈ s.sniffer ∧ j.descriptor.metadataSniffer = false ∧
        j.payload = payload ∧ j.ctx = c) ∧
    ((∀ x ∈ s.sniffer, x.metadataSniffer = false →
        ¬ IsMatch (x.protocolSniffer payload c)) →
      (s.Sniff payload c).invoked =
        (s.sniffer.filter (fun d => !d.metadataSniffer)).map
          (fun d => (⟨d, payload, c⟩ : Invocation))) ∧
    (∀ pre d post, s.sniffer = pre ++ d :: post →
      d.metadataSniffer = false → IsMatch (d.protocolSniffer payload c) →
      (∀ x ∈ pre, x.metadataSniffer = false → ¬ IsMatch (x.protocolSniffer payload c)) →
      (s.Sniff payload c).invoked =
        (pre.filter (fun d => !d.metadataSniffer) ++ [d]).map
          (fun d => (⟨d, payload, c⟩ : Invocation))) := by
  refine ⟨?_, ?_, ?_⟩
  · intro j hj
    have hj2 : j ∈ (s.call (Request.Sniff payload c)).invoked := hj
    have := call_invoked hj2
    exact ⟨this.1, this.2⟩
  · intro h
    rw [Sniff_invoked]
    unfold contentTrace
    rw [contentRun_of_no_match h]
    rfl
  · intro pre d post hs hmeta hmatch hpre
    rw [Sniff_invoked, hs]
    unfold contentTrace
    rw [contentRun_of_first_match pre d post hmeta hmatch hpre]
    rfl

/-- Witness for C12: on a TLS hello, with a metadata-only descriptor in front of the
three of `exSniffer`, `Sniff` invokes the HTTP and the TLS descriptor, in this order, and
nothing else. -/
theorem Sniff_invocation_order_witness :
    (exWithMeta.Sniff (some [22, 3, 1]) 0).invoked =
      ([exMetaDescriptor, exHTTPDescriptor].filter (fun d => !d.metadataSniffer) ++
        [exTLSDescriptor]).map (fun d => (⟨d, some [22, 3, 1], 0⟩ : Invocation)) :=
  (Sniff_invocation_order exWithMeta (some [22, 3, 1]) 0).2.2
    [exMetaDescriptor, exHTTPDescriptor] exTLSDescriptor [exBittorrentDescriptor] rfl rfl
    (by decide)
    (by
      intro x hx
      have hx2 : x = exMetaDescriptor ∨ x = exHTTPDescriptor := by
        simpa using hx
      rcases hx2 with h | h <;> subst h <;> intro hm
      · exact Bool.noConfusion hm
      · decide)

/-! ## What a call leaves behind -/

theorem no_metadata_of_sublist {l1 l2 : List protocolSnifferWithMetadata}
    (hsub : List.Sublist l1 l2) (h : ∀ d ∈ l2, d.metadataSniffer = false) :
    ∀ d ∈ l1, d.metadataSniffer = false :=
  fun d hd => h d (hsub.subset hd)

/-- The list left by a content pass that reports NeedMoreData has no metadata-only
descriptor. -/
theorem Sniff_needMore_no_metadata {s : Sniffer} {payload : Bytes} {c : Context}
    (h : (s.Sniff payload c).err = some GoError.ErrNoClue) :
    ∀ d ∈ (s.Sniff payload c).sniffer.sniffer, d.metadataSniffer = false := by
  intro d hd
  rw [(Sniff_needMore h).2.2] at hd
  exact (contentNoClue_iff.mp (List.mem_filter.mp hd).2).1

theorem metadataOnly_eq_nil_iff (l : List protocolSnifferWithMetadata) :
    metadataOnly l = [] ↔ ∀ d ∈ l, d.metadataSniffer = false := by
  unfold metadataOnly
  rw [List.filter_eq_nil_iff]
  constructor
  · intro h d hd
    simpa using h d hd
  · intro h d hd
    simp [h d hd]

/-- Counterexample for C13 as stated.  With a metadata-only descriptor in front of the
three of `exSniffer`, a `Sniff` that returns a Match (on `G E`) or NoMatch (on the byte `9`)
keeps the metadata-only descriptor in the list, and the following `SniffMetadata`
invokes it. -/
theorem Sniff_keeps_metadata_counterexample :
    (exMetaDescriptor.metadataSniffer = true ∧ exMetaDescriptor ∈ exWithMeta.sniffer) ∧
    ((exWithMeta.Sniff (some [71, 69]) 0).err = none ∧
      exMetaDescriptor ∈ (exWithMeta.Sniff (some [71, 69]) 0).sniffer.sniffer ∧
      ∃ j ∈ ((exWithMeta.Sniff (some [71, 69]) 0).sniffer.SniffMetadata 1).invoked,
        j.descriptor = exMetaDescriptor) ∧
    ((exWithMeta.Sniff (some [9]) 0).err = some GoError.errUnknownContent ∧
      exMetaDescriptor ∈ (exWithMeta.Sniff (some [9]) 0).sniffer.sniffer ∧
      ∃ j ∈ ((exWithMeta.Sniff (some [9]) 0).sniffer.SniffMetadata 1).invoked,
        j.descriptor = exMetaDescriptor) := by
  refine ⟨⟨rfl, List.mem_cons_self _ _⟩, ⟨rfl, ?_, ⟨exMetaDescriptor, none, 1⟩, ?_, rfl⟩,
    ⟨rfl, ?_, ⟨exMetaDescriptor, none, 1⟩, ?_, rfl⟩⟩
  · exact List.mem_cons_self _ _
  · exact List.mem_cons_self _ _
  · exact List.mem_cons_self _ _
  · exact List.mem_cons_self _ _

/-- C13, amended.  For every Sniffer and payload: once a `Sniff` call has reported
NeedMoreData, the metadata-only descriptors are erased from the Sniffer's list: the
list after that call contains no metadata-only descriptor, nor does it after any later
calls, and no later `SniffMetadata` call on that instance invokes any detector. -/
theorem Sniff_NeedMoreData_erases_metadata (s : Sniffer) (payload : Bytes) (c : Context)
    (later : List Request) (c2 : Context)
    (h : (s.Sniff payload c).err = some GoError.ErrNoClue) :
    metadataOnly (s.Sniff payload c).sniffer.sniffer = [] ∧
      (∀ d ∈ (s.Sniff payload c).sniffer.sniffer, d.metadataSniffer = false) ∧
      (∀ d ∈ ((s.Sniff payload c).sniffer.after later).sniffer, d.metadataSniffer = false) ∧
      (((s.Sniff payload c).sniffer.after later).SniffMetadata c2).invoked = [] := by
  have h1 := Sniff_needMore_no_metadata h
  have h2 := no_metadata_of_sublist (after_sublist (s.Sniff payload c).sniffer later) h1
  refine ⟨(metadataOnly_eq_nil_iff _).mpr h1, h1, h2, ?_⟩
  rw [SniffMetadata_of_no_metadata _ c2 h2]

/-- Witness for C13 amended: on the byte `22` the registry with a metadata-only
descriptor reports NeedMoreData; afterwards `SniffMetadata` invokes nothing. -/
theorem Sniff_NeedMoreData_erases_metadata_witness :
    (exWithMeta.Sniff (some [22]) 0).err = some GoError.ErrNoClue ∧
      (((exWithMeta.Sniff (some [22]) 0).sniffer.after []).SniffMetadata 1).invoked = [] :=
  ⟨rfl, (Sniff_NeedMoreData_erases_metadata exWithMeta (some [22]) 0 [] 1 rfl).2.2.2⟩

/-- C14. A `Sniff` call or a `SniffMetadata` call that returns Match or NoMatch leaves
the Sniffer exactly as it was before the call, descriptors that rejected during the
call included; the list is modified only by a call that returns NeedMoreData. -/
theorem list_modified_only_on_NeedMoreData (s : Sniffer) (payload : Bytes) (c : Context) :
    ((s.Sniff payload c).err = none → (s.Sniff payload c).sniffer = s) ∧
    ((s.Sniff payload c).err = some GoError.errUnknownContent →
      (s.Sniff payload c).sniffer = s) ∧
    ((s.Sniff payload c).sniffer.sniffer ≠ s.sniffer →
      (s.Sniff payload c).result = SniffResult.nil ∧
        (s.Sniff payload c).err = some GoError.ErrNoClue) ∧
    ((s.SniffMetadata c).err = none → (s.SniffMetadata c).sniffer = s) ∧
    ((s.SniffMetadata c).err = some GoError.errUnknownContent →
      (s.SniffMetadata c).sniffer = s) ∧
    ((s.SniffMetadata c).sniffer.sniffer ≠ s.sniffer →
      (s.SniffMetadata c).result = SniffResult.nil ∧
        (s.SniffMetadata c).err = some GoError.ErrNoClue) := by
  refine ⟨?_, ?_, ?_, ?_, ?_, ?_⟩
  · intro he
    exact Sniff_frame (by rw [he]; simp)
  · intro he
    exact Sniff_frame (by rw [he]; simp)
  · intro hne
    by_cases he : (s.Sniff payload c).err = some GoError.ErrNoClue
    · rcases Sniff_outcome s payload c with h1 | h1 | h1
      · rw [h1.2] at he; simp at he
      · exact h1
      · rw [h1.2] at he; simp at he
    · exact absurd (congrArg Sniffer.sniffer (Sniff_frame he)) hne
  · intro he
    exact SniffMetadata_frame (by rw [he]; simp)
  · intro he
    exact SniffMetadata_frame (by rw [he]; simp)
  · intro hne
    by_cases he : (s.SniffMetadata c).err = some GoError.ErrNoClue
    · rcases SniffMetadata_outcome s c with h1 | h1 | h1
      · rw [h1.2] at he; simp at he
      · exact h1
      · rw [h1.2] at he; simp at he
    · exact absurd (congrArg Sniffer.sniffer (SniffMetadata_frame he)) hne

/-- Witness for C14: the example registry is unchanged by a `Sniff` that reports
NoMatch after all three descriptors rejected, and by one that returns a Match. -/
theorem list_modified_only_on_NeedMoreData_witness :
    (exSniffer.Sniff (some [9]) 0).sniffer = exSniffer ∧
      (exSniffer.Sniff (some [22, 3, 1]) 0).sniffer = exSniffer :=
  ⟨(list_modified_only_on_NeedMoreData exSniffer (some [9]) 0).2.1 rfl,
    (list_modified_only_on_NeedMoreData exSniffer (some [22, 3, 1]) 0).1 rfl⟩

theorem call_ne_nil {s : Sniffer} (r : Request) (h : s.sniffer ≠ []) :
    (s.call r).sniffer.sniffer ≠ [] := by
  cases r with
  | Sniff payload c =>
    show (s.Sniff payload c).sniffer.sniffer ≠ []
    by_cases he : (s.Sniff payload c).err = some GoError.ErrNoClue
    · rw [(Sniff_needMore he).2.2]
      exact (Sniff_needMore he).2.1
    · rw [Sniff_frame he]
      exact h
  | SniffMetadata c =>
    show (s.SniffMetadata c).sniffer.sniffer ≠ []
    by_cases he : (s.SniffMetadata c).err = some GoError.ErrNoClue
    · rw [(SniffMetadata_needMore he).2.2]
      exact (SniffMetadata_needMore he).2.1
    · rw [SniffMetadata_frame he]
      exact h

theorem after_ne_nil {s : Sniffer} (rs : List Request) (h : s.sniffer ≠ []) :
    (s.after rs).sniffer ≠ [] := by
  induction rs generalizing s with
  | nil => exact h
  | cons r rs ih => exact ih (call_ne_nil r h)

/-- C15. A non-empty descriptor list never becomes empty: for every Sniffer with a
non-empty list and every finite sequence of `Sniff` and `SniffMetadata` calls, the list
is non-empty after every call; a Sniffer built by `NewSniffer` holds between 1 and 3
descriptors after any sequence of calls, also after a call that reported NoMatch. -/
theorem nonempty_list_stays_nonempty :
    (∀ (s : Sniffer) (rs : List Request), s.sniffer ≠ [] → (s.after rs).sniffer ≠ []) ∧
    (∀ (s : Sniffer) (r : Request), s.sniffer ≠ [] → (s.call r).sniffer.sniffer ≠ []) ∧
    (∀ (h t b : Bytes → SniffHeader × Option GoError) (rs : List Request),
      1 ≤ ((NewSniffer h t b).after rs).sniffer.length ∧
        ((NewSniffer h t b).after rs).sniffer.length ≤ 3) := by
  refine ⟨fun s rs h => after_ne_nil rs h, fun s r h => call_ne_nil r h, ?_⟩
  intro h t b rs
  constructor
  · apply List.length_pos.mpr
    apply after_ne_nil
    simp [NewSniffer]
  · exact (after_sublist (NewSniffer h t b) rs).length_le

/-- Witness for C15: the example registry after a NoMatch call, a metadata pass and a
NeedMoreData call still holds a descriptor. -/
theorem nonempty_list_stays_nonempty_witness :
    (exSniffer.after [Request.Sniff (some [9]) 0, Request.SniffMetadata 1,
      Request.Sniff (some [22]) 2]).sniffer ≠ [] :=
  nonempty_list_stays_nonempty.1 exSniffer
    [Request.Sniff (some [9]) 0, Request.SniffMetadata 1, Request.Sniff (some [22]) 2]
    (by simp [exSniffer, NewSniffer])

/-- C16. With deterministic detectors `Sniff` is idempotent for a fixed payload:
calling `Sniff(payload)` twice in a row on the same instance returns the same outcome
both times, and the descriptor list after the second call equals the list after the
first call. -/
theorem Sniff_idempotent (s : Sniffer) (payload : Bytes) (c : Context) :
    ((s.Sniff payload c).sniffer.Sniff payload c).result = (s.Sniff payload c).result ∧
      ((s.Sniff payload c).sniffer.Sniff payload c).err = (s.Sniff payload c).err ∧
      ((s.Sniff payload c).sniffer.Sniff payload c).sniffer = (s.Sniff payload c).sniffer := by
  by_cases he : (s.Sniff payload c).err = some GoError.ErrNoClue
  · obtain ⟨_, hne, hnew⟩ := Sniff_needMore he
    have hres : (s.Sniff payload c).result = SniffResult.nil := by
      rcases Sniff_outcome s payload c with h1 | h1 | h1
      · rw [h1.2] at he; simp at he
      · exact h1.1
      · exact h1.1
    have hfind : (s.Sniff payload c).sniffer.sniffer.find? (contentMatch payload c) = none := by
      rw [hnew, List.find?_eq_none]
      intro x hx hq
      have hk := (contentNoClue_iff.mp (List.mem_filter.mp hx).2).2
      exact isMatch_not_noClue (contentMatch_iff.mp hq).2 hk
    have hfil : (s.Sniff payload c).sniffer.sniffer.filter (contentNoClue payload c) =
        (s.Sniff payload c).sniffer.sniffer := by
      rw [hnew, List.filter_filter, List.filter_congr]
      intro x _
      simp
    have hlen : ((s.Sniff payload c).sniffer.sniffer.filter
        (contentNoClue payload c)).length > 0 := by
      rw [hfil, hnew]
      exact List.length_pos.mpr hne
    rw [Sniff_of_find_none hfind, if_pos hlen, hfil, hres, he]
    exact ⟨rfl, rfl, rfl⟩
  · rw [Sniff_frame he]
    exact ⟨rfl, rfl, Sniff_frame he⟩

end Dispatcher
